import Mathlib

/-!
Verification of the `humioctl search` pipeline (`cmd/humioctl/search.go`):
the query-job poller, the event-list printer (dedup + ordering + format
compilation), the aggregate printer's column derivation, the progress
reporting (terminal bar and JSON records), and the top-level session loop
with its error handling.

Events are JSON objects decoded into `map[string]interface{}` in Go; we
model them as association lists from field name to a scalar `Value`
(string, number, boolean, null), with JSON numbers (Go `float64`) modelled
as exact rationals.  Wall-clock instants are modelled as integer epoch
milliseconds.
-/

namespace HumioCli

/-- A decoded JSON scalar value (Go stores these as `string`, `float64`,
`bool` and `nil` inside `map[string]interface{}`). -/
inductive Value where
  | str (s : String)
  | num (q : Rat)
  | boolean (b : Bool)
  | null
deriving DecidableEq, Repr

/-- One event: a JSON object, modelled as an association list of
field-name/value pairs (keys distinct, as produced by JSON decoding;
Go map iteration order over a row's fields is unspecified, so the list
order stands for one such enumeration order). -/
abbrev Event := List (String × Value)

/-- Go map read `e[k]`: the value stored under key `k`, if present. -/
def lookupField (e : Event) (k : String) : Option Value :=
  (e.find? (fun kv => kv.1 = k)).map (fun kv => kv.2)

/-- `api.QueryResultMetadata`: the metadata fields of a poll snapshot that
`search.go` reads. -/
structure QueryResultMetadata where
  isAggregate : Bool
  pollAfter : Int
  fieldOrder : List String
  totalWork : Nat
  workDone : Nat
  timeMillis : Nat
  processedEvents : Nat
  processedBytes : Nat
  eventCount : Nat
  queryStart : Nat
  queryEnd : Nat
deriving DecidableEq, Repr

/-- `api.QueryResult`: one poll snapshot. -/
structure QueryResult where
  done : Bool
  metadata : QueryResultMetadata
  events : List Event
deriving DecidableEq, Repr

/-- A metadata record with all fields zeroed, used to build concrete
snapshots in examples. -/
def mdZero : QueryResultMetadata :=
  ⟨false, 0, [], 0, 0, 0, 0, 0, 0, 0, 0⟩

/-! ## The poller (`queryJobPoller.WaitAndPollContext`, search.go:293-308)

The poller owns one mutable field, `nextPoll : time.Time`; we model
instants as integer epoch milliseconds.  One call to
`WaitAndPollContext` is modelled as a pure function of
  * the poller state,
  * `now`, the instant the call starts (when the `select` begins waiting),
  * `ctxCanceled`, whether the cancellation signal fires during the wait
    (before the timer), making the `select` take the `ctx.Done()` branch,
  * the response of the underlying `PollContext` request, and
  * `respTime`, the instant `time.Now()` at which that response is
    processed (the code sets `nextPoll` from `time.Now()` after the
    request returns, so `respTime` is at least the issue instant).
The result records the outcome, the new poller state, and the instant at
which the poll request was issued (`none` when no request was issued).
`time.After(time.Until(q.nextPoll))` elapses immediately when `nextPoll`
is in the past, so the request is issued at `max now nextPoll`. -/

/-- State of a `queryJobPoller` (the `repository`/`id`/client fields do
not influence timing and are omitted). -/
structure QueryJobPoller where
  nextPoll : Int
deriving DecidableEq, Repr

/-- Outcome of one `WaitAndPollContext` call. -/
inductive PollOutcome where
  | canceled
  | failed (e : String)
  | ok (r : QueryResult)
deriving DecidableEq, Repr

/-- Result of one modelled `WaitAndPollContext` call: outcome, updated
poller state, and the instant the poll request was issued (if any). -/
structure PollStep where
  outcome : PollOutcome
  poller : QueryJobPoller
  issuedAt : Option Int
deriving DecidableEq, Repr

/-- `queryJobPoller.WaitAndPollContext` (search.go:293-308). -/
def waitAndPollContext (q : QueryJobPoller) (now : Int) (ctxCanceled : Bool)
    (resp : Except String QueryResult) (respTime : Int) : PollStep :=
  if ctxCanceled then
    { outcome := .canceled, poller := q, issuedAt := none }
  else
    let issue := max now q.nextPoll
    match resp with
    | .error e => { outcome := .failed e, poller := q, issuedAt := some issue }
    | .ok r =>
        { outcome := .ok r
          poller := { nextPoll := respTime + r.metadata.pollAfter }
          issuedAt := some issue }

/-- A concrete snapshot whose only nonzero metadata field is
`pollAfter = 500`, used by the poller witnesses. -/
def snap500 : QueryResult :=
  { done := false, metadata := { mdZero with pollAfter := 500 }, events := [] }

/-- Claim C1: the poller never issues a poll request before its
`nextPoll` time; after each successful response it sets `nextPoll` to the
response time plus the snapshot's `PollAfter` milliseconds, so a response
with `PollAfter = 500` processed at `respTime` makes any subsequent
request issue no earlier than `respTime + 500`; and if cancellation fires
during the wait the call returns the cancellation outcome with no request
issued and the state unchanged. -/
theorem waitAndPollContext_c1_spec (q : QueryJobPoller) (now : Int)
    (c : Bool) (resp : Except String QueryResult) (respTime : Int) :
    (∀ t, (waitAndPollContext q now c resp respTime).issuedAt = some t →
      q.nextPoll ≤ t) ∧
    (∀ r, c = false → resp = .ok r →
      (waitAndPollContext q now c resp respTime).poller.nextPoll =
        respTime + r.metadata.pollAfter) ∧
    (∀ r, c = false → resp = .ok r →
      ∀ now2 c2 resp2 respTime2 t2,
        (waitAndPollContext (waitAndPollContext q now c resp respTime).poller
          now2 c2 resp2 respTime2).issuedAt = some t2 →
        respTime + r.metadata.pollAfter ≤ t2) ∧
    (c = true →
      waitAndPollContext q now c resp respTime =
        { outcome := .canceled, poller := q, issuedAt := none }) := by
  refine ⟨?_, ?_, ?_, ?_⟩
  · intro t ht
    cases c with
    | true => simp [waitAndPollContext] at ht
    | false =>
        cases resp with
        | error e =>
            simp [waitAndPollContext] at ht
            omega
        | ok r =>
            simp [waitAndPollContext] at ht
            omega
  · intro r hc hresp
    subst hc; subst hresp
    simp [waitAndPollContext]
  · intro r hc hresp now2 c2 resp2 respTime2 t2 ht
    subst hc; subst hresp
    cases c2 with
    | true => simp [waitAndPollContext] at ht
    | false =>
        cases resp2 with
        | error e =>
            simp [waitAndPollContext] at ht
            omega
        | ok r2 =>
            simp [waitAndPollContext] at ht
            omega
  · intro hc
    subst hc
    simp [waitAndPollContext]

/-- Witness for C1 at concrete inputs: from state `nextPoll = 1000`, a
successful poll processed at `respTime = 1200` with `PollAfter = 500`
schedules the next poll at `1700`, and a follow-up call at `now2 = 100`
issues its request at time `1700 ≥ 1200 + 500`; a canceled call returns
the cancellation outcome untouched. -/
theorem waitAndPollContext_c1_witness :
    (waitAndPollContext ⟨1000⟩ 900 false (.ok snap500) 1200).poller.nextPoll
      = 1200 + snap500.metadata.pollAfter ∧
    (1200 : Int) + snap500.metadata.pollAfter ≤ 1700 ∧
    waitAndPollContext ⟨1000⟩ 900 true (.ok snap500) 1200 =
      { outcome := .canceled, poller := ⟨1000⟩, issuedAt := none } := by
  refine ⟨?_, by decide, ?_⟩
  · exact (waitAndPollContext_c1_spec ⟨1000⟩ 900 false (.ok snap500) 1200).2.1
      snap500 rfl rfl
  · exact (waitAndPollContext_c1_spec ⟨1000⟩ 900 true (.ok snap500) 1200).2.2.2
      rfl

/-- Claim C10: when the underlying poll request fails, the call returns
that error unmodified and leaves the poller state (and hence `nextPoll`)
unchanged, so a subsequent call issues its request at
`max now2 nextPoll` — waiting only until the previously scheduled poll
time, with no extra back-off from the failure. -/
theorem waitAndPollContext_c10_error_atomic (q : QueryJobPoller) (now : Int)
    (e : String) (respTime : Int) :
    (waitAndPollContext q now false (.error e) respTime).outcome = .failed e ∧
    (waitAndPollContext q now false (.error e) respTime).poller = q ∧
    (∀ now2 respTime2 resp2,
      (waitAndPollContext (waitAndPollContext q now false (.error e) respTime).poller
        now2 false resp2 respTime2).issuedAt = some (max now2 q.nextPoll)) := by
  refine ⟨rfl, rfl, ?_⟩
  intro now2 respTime2 resp2
  cases resp2 with
  | error e2 => simp [waitAndPollContext]
  | ok r2 => simp [waitAndPollContext]

/-- Witness for C10 at concrete inputs: a failed poll from state
`nextPoll = 1000` leaves the state at `1000`, and the follow-up call at
`now2 = 400` issues at `max 400 1000 = 1000`. -/
theorem waitAndPollContext_c10_witness :
    (waitAndPollContext ⟨1000⟩ 900 false (.error "boom") 1200).poller = ⟨1000⟩ ∧
    (waitAndPollContext (waitAndPollContext ⟨1000⟩ 900 false (.error "boom") 1200).poller
      400 false (.ok snap500) 1500).issuedAt = some 1000 := by
  have h := waitAndPollContext_c10_error_atomic ⟨1000⟩ 900 "boom" 1200
  refine ⟨h.2.1, ?_⟩
  have h2 := h.2.2 400 1500 (.ok snap500)
  rw [h2]
  decide

/-! ## Event-list printing: ordering (search.go:388-402)

`eventListPrinter.print` first sorts `result.Events` with `sort.Slice`
and the comparator below.  Go's `sort.Slice` runs pattern-defeating
quicksort, which for ranges of at most 12 elements is exactly the
insertion sort modelled here (and is stable there; above 12 elements the
algorithm may reorder equivalent elements).  `insertGo` places the new
element before the first already-placed element it compares less than,
which is what Go's insertion sort's swap loop computes. -/

/-- The numeric timestamp of an event: the value of the field named by
the timestamp key when it is a JSON number (Go:
`e["@timestamp"].(float64)`, with `ok = false` on a missing field or a
non-number). -/
def eventTs (e : Event) : Option Rat :=
  match lookupField e "@timestamp" with
  | some (.num q) => some q
  | _ => none

/-- The `less` closure passed to `sort.Slice` (search.go:388-402),
written on the two compared events. -/
def eventsLess (a b : Event) : Bool :=
  match eventTs a, eventTs b with
  | some x, some y => x < y
  | _, none => false
  | none, some _ => true

/-- Insert an element into an already-sorted list, before the first
element it is `eventsLess` than (Go insertion sort's inner swap loop). -/
def insertGo (x : Event) : List Event → List Event
  | [] => [x]
  | y :: ys => if eventsLess x y then x :: y :: ys else y :: insertGo x ys

/-- The `sort.Slice` call of `eventListPrinter.print`, in the insertion
sort regime (ranges of at most 12 elements). -/
def sortSliceEvents (l : List Event) : List Event :=
  l.foldl (fun acc x => insertGo x acc) []

/-! ## Event-list printing: deduplication (search.go:404-412) -/

/-- The identifier of an event: the value of its id field when it is a
string (Go: `e["@id"].(string)`). -/
def eventId (e : Event) : Option String :=
  match lookupField e "@id" with
  | some (.str s) => some s
  | _ => none

/-- The emission loop of `eventListPrinter.print` over the (sorted)
events of one snapshot: an event with an identifier is emitted only if
the identifier is not yet in `printedIds`, and is then recorded; an event
without an identifier is always emitted.  Returns the emitted events in
order together with the updated identifier set (the Go
`map[string]bool` is modelled as the list of recorded identifiers). -/
def printLoop (ids : List String) : List Event → List Event × List String
  | [] => ([], ids)
  | e :: es =>
    match eventId e with
    | some i =>
        if ids.contains i then printLoop ids es
        else
          let rest := printLoop (ids ++ [i]) es
          (e :: rest.1, rest.2)
    | none =>
        let rest := printLoop ids es
        (e :: rest.1, rest.2)

/-- `eventListPrinter.print` for one snapshot, as a function of the
dedup-set state: the list of events written to the output (in order)
and the updated state. -/
def eventListPrint (ids : List String) (r : QueryResult) : List Event × List String :=
  printLoop ids (sortSliceEvents r.events)

/-- A whole session in event-list mode: fold `eventListPrint` over the
sequence of snapshots, concatenating the emitted events. -/
def eventListSession (ids : List String) : List QueryResult → List Event × List String
  | [] => ([], ids)
  | r :: rs =>
    let step := eventListPrint ids r
    let rest := eventListSession step.2 rs
    (step.1 ++ rest.1, rest.2)

/-- Whether an event lacks a numeric timestamp. -/
def untimedB (e : Event) : Bool := (eventTs e).isNone

theorem eventsLess_asymm {a b : Event} (h : eventsLess a b = true) :
    eventsLess b a = false := by
  unfold eventsLess at h ⊢
  rcases hA : eventTs a with _ | x <;> rcases hB : eventTs b with _ | y <;>
    simp_all
  linarith

theorem eventsLess_trans {a b c : Event} (hab : eventsLess a b = true)
    (hbc : eventsLess b c = true) : eventsLess a c = true := by
  unfold eventsLess at hab hbc ⊢
  rcases hA : eventTs a with _ | x <;> rcases hB : eventTs b with _ | y <;>
    rcases hC : eventTs c with _ | z <;> simp_all
  linarith

theorem eventsLess_false_of_not_true {a b : Event} (h : ¬ eventsLess a b = true) :
    eventsLess a b = false := by
  cases h2 : eventsLess a b with
  | true => exact absurd h2 h
  | false => rfl

theorem insertGo_perm (x : Event) (l : List Event) :
    (insertGo x l).Perm (x :: l) := by
  induction l with
  | nil => exact List.Perm.refl _
  | cons y ys ih =>
      unfold insertGo
      by_cases h : eventsLess x y = true
      · rw [if_pos h]
      · rw [if_neg h]
        exact (ih.cons y).trans (List.Perm.swap x y ys)

theorem mem_insertGo {z x : Event} {l : List Event} :
    z ∈ insertGo x l ↔ z = x ∨ z ∈ l := by
  constructor
  · intro h
    have := (insertGo_perm x l).subset h
    simpa using this
  · intro h
    apply (insertGo_perm x l).symm.subset
    simpa using h

theorem insertGo_sorted {x : Event} {l : List Event}
    (h : l.Pairwise (fun a b => eventsLess b a = false)) :
    (insertGo x l).Pairwise (fun a b => eventsLess b a = false) := by
  induction l with
  | nil => simp [insertGo]
  | cons y ys ih =>
      rcases List.pairwise_cons.mp h with ⟨hy, hys⟩
      unfold insertGo
      by_cases hxy : eventsLess x y = true
      · rw [if_pos hxy]
        refine List.pairwise_cons.mpr ⟨?_, h⟩
        intro z hz
        rcases List.mem_cons.mp hz with rfl | hz
        · exact eventsLess_asymm hxy
        · by_contra hzx
          have hzx' : eventsLess z x = true := by
            cases h2 : eventsLess z x with
            | true => rfl
            | false => exact absurd h2 hzx
          have := eventsLess_trans hzx' hxy
          rw [hy z hz] at this
          exact Bool.false_ne_true this
      · rw [if_neg hxy]
        refine List.pairwise_cons.mpr ⟨?_, ih hys⟩
        intro z hz
        rcases mem_insertGo.mp hz with rfl | hz
        · exact eventsLess_false_of_not_true hxy
        · exact hy z hz

theorem filter_insertGo_of_neg {p : Event → Bool} {x : Event}
    (hx : p x = false) (l : List Event) :
    (insertGo x l).filter p = l.filter p := by
  induction l with
  | nil => simp [insertGo, hx]
  | cons y ys ih =>
      unfold insertGo
      by_cases h : eventsLess x y = true
      · rw [if_pos h]
        rw [List.filter_cons, List.filter_cons]
        simp [hx]
      · rw [if_neg h]
        rw [List.filter_cons, List.filter_cons]
        cases p y <;> simp [ih]

theorem untimed_of_less_untimed {x y : Event} (hx : untimedB x = true)
    (h : eventsLess x y = false) : untimedB y = true := by
  unfold untimedB at hx ⊢
  unfold eventsLess at h
  rcases hA : eventTs x with _ | a <;> rcases hB : eventTs y with _ | b <;>
    simp_all

theorem timed_of_untimed_less {x y : Event} (hx : untimedB x = true)
    (h : eventsLess x y = true) : untimedB y = false := by
  unfold untimedB at hx ⊢
  unfold eventsLess at h
  rcases hA : eventTs x with _ | a <;> rcases hB : eventTs y with _ | b <;>
    simp_all

theorem untimed_less_timed {x y : Event} (hx : untimedB x = true)
    (hy : untimedB y = false) : eventsLess x y = true := by
  unfold untimedB at hx hy
  unfold eventsLess
  rcases hA : eventTs x with _ | a <;> rcases hB : eventTs y with _ | b <;>
    simp_all

theorem filter_insertGo_untimed {x : Event} {l : List Event}
    (hx : untimedB x = true)
    (hs : l.Pairwise (fun a b => eventsLess b a = false)) :
    (insertGo x l).filter untimedB = l.filter untimedB ++ [x] := by
  induction l with
  | nil => simp [insertGo, hx]
  | cons y ys ih =>
      rcases List.pairwise_cons.mp hs with ⟨hy, hys⟩
      unfold insertGo
      by_cases h : eventsLess x y = true
      · rw [if_pos h]
        have hyT : untimedB y = false := timed_of_untimed_less hx h
        have hall : List.filter untimedB (y :: ys) = [] := by
          rw [List.filter_eq_nil_iff]
          intro z hz
          rcases List.mem_cons.mp hz with rfl | hz
          · simp [hyT]
          · -- z follows the timestamped y in a sorted list, so z is
            -- timestamped too: an untimestamped z would be eventsLess
            -- than y, contradicting sortedness.
            intro hzU
            have : eventsLess z y = true := untimed_less_timed hzU hyT
            rw [hy z hz] at this
            exact Bool.false_ne_true this
        simp [List.filter_cons, hx, hall]
      · rw [if_neg h]
        have hyU : untimedB y = true :=
          untimed_of_less_untimed hx (eventsLess_false_of_not_true h)
        rw [List.filter_cons, List.filter_cons]
        simp [hyU, ih hys]

/-- Combined foldl invariant for the `sort.Slice` model: permutation,
sortedness, and preservation of the relative order of untimestamped
events. -/
theorem sortLoop_spec (l : List Event) : ∀ acc : List Event,
    acc.Pairwise (fun a b => eventsLess b a = false) →
    (l.foldl (fun a x => insertGo x a) acc).Perm (acc ++ l) ∧
    (l.foldl (fun a x => insertGo x a) acc).Pairwise
      (fun a b => eventsLess b a = false) ∧
    (l.foldl (fun a x => insertGo x a) acc).filter untimedB =
      acc.filter untimedB ++ l.filter untimedB := by
  induction l with
  | nil => intro acc hacc; simp [hacc, List.Perm.refl]
  | cons x xs ih =>
      intro acc hacc
      have hs' : (insertGo x acc).Pairwise (fun a b => eventsLess b a = false) :=
        insertGo_sorted hacc
      rcases ih (insertGo x acc) hs' with ⟨hperm, hsort, hfilt⟩
      refine ⟨?_, by simpa using hsort, ?_⟩
      · simp only [List.foldl_cons]
        refine hperm.trans ?_
        refine (List.Perm.append_right xs (insertGo_perm x acc)).trans ?_
        exact List.perm_middle.symm
      · simp only [List.foldl_cons]
        rw [hfilt]
        by_cases hx : untimedB x = true
        · rw [filter_insertGo_untimed hx hacc]
          rw [List.filter_cons]
          simp [hx]
        · have hx' : untimedB x = false := by
            cases h2 : untimedB x with
            | true => exact absurd h2 hx
            | false => rfl
          rw [filter_insertGo_of_neg hx']
          rw [List.filter_cons]
          simp [hx']

theorem sortSliceEvents_perm (l : List Event) : (sortSliceEvents l).Perm l := by
  have h := (sortLoop_spec l [] (by simp)).1
  simpa [sortSliceEvents] using h

theorem sortSliceEvents_sorted (l : List Event) :
    (sortSliceEvents l).Pairwise (fun a b => eventsLess b a = false) :=
  (sortLoop_spec l [] (by simp)).2.1

theorem sortSliceEvents_filter_untimed (l : List Event) :
    (sortSliceEvents l).filter untimedB = l.filter untimedB := by
  have h := (sortLoop_spec l [] (by simp)).2.2
  simpa [sortSliceEvents] using h

theorem printLoop_sublist (ids : List String) (es : List Event) :
    (printLoop ids es).1.Sublist es := by
  induction es generalizing ids with
  | nil => simp [printLoop]
  | cons e es ih =>
      cases h : eventId e with
      | none =>
          simp only [printLoop, h]
          exact (ih ids).cons₂ e
      | some i =>
          simp only [printLoop, h]
          by_cases hc : ids.contains i = true
          · rw [if_pos hc]
            exact (ih ids).cons e
          · rw [if_neg hc]
            exact (ih (ids ++ [i])).cons₂ e

/-! ## Claim C3: emission order -/

/-- A timestamped event, used in the C3 example. -/
def evT10 : Event := [("@timestamp", Value.num 10)]

/-- An untimestamped event, used in the C3 example. -/
def evNoT : Event := [("x", Value.str "u")]

/-- A non-aggregate snapshot holding a timestamped event followed by an
untimestamped one. -/
def snapC3 : QueryResult :=
  { done := true, metadata := mdZero, events := [evT10, evNoT] }

/-- Counterexample to claim C3: the comparator returns `true` when the
first event lacks a timestamp and the second has one, so the
untimestamped event sorts (and is emitted) BEFORE the timestamped one,
not after it as the claim states. -/
theorem eventList_c3_counterexample :
    eventTs evT10 = some 10 ∧ eventTs evNoT = none ∧
    (eventListPrint [] snapC3).1 = [evNoT, evT10] ∧
    (eventListPrint [] snapC3).1 ≠ [evT10, evNoT] := by
  refine ⟨rfl, rfl, by decide, by decide⟩

/-- Claim C3 (amended): for every snapshot rendered in event-list mode
(of at most 12 events, the regime where Go's unstable
pattern-defeating-quicksort `sort.Slice` runs exactly the stable
insertion sort modelled here), the snapshot's events are reordered into
a permutation that is sorted by the comparator: ascending in the numeric
timestamp field, with every event missing a numeric timestamp placed
BEFORE all timestamped events; untimestamped events compare equal among
themselves and keep their relative input order; the emitted events are a
subsequence of that sorted order. -/
theorem eventListPrint_c3_amended (r : QueryResult) (ids : List String)
    (h : r.events.length ≤ 12) :
    (sortSliceEvents r.events).Perm r.events ∧
    (sortSliceEvents r.events).Pairwise (fun a b => eventsLess b a = false) ∧
    (sortSliceEvents r.events).Pairwise
      (fun a b => ∀ x y, eventTs a = some x → eventTs b = some y → x ≤ y) ∧
    (sortSliceEvents r.events).Pairwise
      (fun a b => ¬(untimedB a = false ∧ untimedB b = true)) ∧
    (sortSliceEvents r.events).filter untimedB = r.events.filter untimedB ∧
    (eventListPrint ids r).1.Sublist (sortSliceEvents r.events) := by
  refine ⟨sortSliceEvents_perm r.events, sortSliceEvents_sorted r.events,
    ?_, ?_, sortSliceEvents_filter_untimed r.events,
    printLoop_sublist ids (sortSliceEvents r.events)⟩
  · refine (sortSliceEvents_sorted r.events).imp ?_
    intro a b hR x y hx hy
    unfold eventsLess at hR
    rw [hx, hy] at hR
    simp at hR
    exact hR
  · refine (sortSliceEvents_sorted r.events).imp ?_
    intro a b hR hc
    have : eventsLess b a = true := untimed_less_timed hc.2 hc.1
    rw [hR] at this
    exact Bool.false_ne_true this

/-- Witness for the amended C3 at the concrete snapshot of the
counterexample: two events satisfy the length bound and the stability
conjunct evaluates as stated. -/
theorem eventListPrint_c3_amended_witness :
    snapC3.events.length ≤ 12 ∧
    (sortSliceEvents snapC3.events).filter untimedB =
      snapC3.events.filter untimedB :=
  ⟨by decide, (eventListPrint_c3_amended snapC3 [] (by decide)).2.2.2.2.1⟩

/-! ## Claim C2: deduplication -/

theorem printLoop_cons_none {e : Event} {es : List Event} {ids : List String}
    (h : eventId e = none) :
    printLoop ids (e :: es) =
      (e :: (printLoop ids es).1, (printLoop ids es).2) := by
  simp [printLoop, h]

theorem printLoop_cons_dup {e : Event} {es : List Event} {ids : List String}
    {i : String} (h : eventId e = some i) (hc : ids.contains i = true) :
    printLoop ids (e :: es) = printLoop ids es := by
  have hm : i ∈ ids := List.elem_iff.mp hc
  simp [printLoop, h, hm]

theorem printLoop_cons_new {e : Event} {es : List Event} {ids : List String}
    {i : String} (h : eventId e = some i) (hc : ids.contains i = false) :
    printLoop ids (e :: es) =
      (e :: (printLoop (ids ++ [i]) es).1, (printLoop (ids ++ [i]) es).2) := by
  have hm : i ∉ ids := by
    intro hm
    have h3 : ids.contains i = true := List.elem_iff.mpr hm
    rw [hc] at h3
    exact Bool.false_ne_true h3
  simp [printLoop, h, hm]

theorem contains_false_iff {α : Type} [DecidableEq α] {ids : List α} {i : α} :
    ids.contains i = false ↔ i ∉ ids := by
  constructor
  · intro h hm
    have h3 : ids.contains i = true := List.elem_iff.mpr hm
    rw [h] at h3
    exact Bool.false_ne_true h3
  · intro hm
    cases h2 : ids.contains i with
    | false => rfl
    | true => exact absurd (List.elem_iff.mp h2) hm

theorem printLoop_ids_eq (es : List Event) : ∀ ids : List String,
    (printLoop ids es).2 = ids ++ (printLoop ids es).1.filterMap eventId := by
  induction es with
  | nil => intro ids; simp [printLoop]
  | cons e es ih =>
      intro ids
      cases h : eventId e with
      | none =>
          rw [printLoop_cons_none h]
          simp [List.filterMap_cons, h, ih ids]
      | some i =>
          cases hc : ids.contains i with
          | true =>
              rw [printLoop_cons_dup h hc]
              exact ih ids
          | false =>
              rw [printLoop_cons_new h hc]
              simp only [List.filterMap_cons, h]
              rw [ih (ids ++ [i])]
              simp
theorem printLoop_emitted_id_fresh (es : List Event) : ∀ ids : List String,
    ∀ e ∈ (printLoop ids es).1, ∀ i, eventId e = some i →
      ids.contains i = false := by
  induction es with
  | nil => intro ids e he; simp [printLoop] at he
  | cons e es ih =>
      intro ids e' he' i hi
      cases h : eventId e with
      | none =>
          rw [printLoop_cons_none h] at he'
          rcases List.mem_cons.mp he' with rfl | he'
          · rw [h] at hi; cases hi
          · exact ih ids e' he' i hi
      | some j =>
          cases hc : ids.contains j with
          | true =>
              rw [printLoop_cons_dup h hc] at he'
              exact ih ids e' he' i hi
          | false =>
              rw [printLoop_cons_new h hc] at he'
              rcases List.mem_cons.mp he' with rfl | he'
              · rw [h] at hi
                injection hi with hji
                subst hji
                exact hc
              · have hfresh := ih (ids ++ [j]) e' he' i hi
                rw [contains_false_iff] at hfresh ⊢
                intro hm
                exact hfresh (List.mem_append_left [j] hm)

theorem printLoop_emitted_ids_nodup (es : List Event) : ∀ ids : List String,
    ((printLoop ids es).1.filterMap eventId).Nodup := by
  induction es with
  | nil => intro ids; simp [printLoop]
  | cons e es ih =>
      intro ids
      cases h : eventId e with
      | none =>
          rw [printLoop_cons_none h]
          simpa [List.filterMap_cons, h] using ih ids
      | some j =>
          cases hc : ids.contains j with
          | true =>
              rw [printLoop_cons_dup h hc]
              exact ih ids
          | false =>
              rw [printLoop_cons_new h hc]
              simp only [List.filterMap_cons, h]
              refine List.nodup_cons.mpr ⟨?_, ih (ids ++ [j])⟩
              intro hmem
              rcases List.mem_filterMap.mp hmem with ⟨e', he', hid⟩
              have hfresh := printLoop_emitted_id_fresh es (ids ++ [j]) e' he' j hid
              rw [contains_false_iff] at hfresh
              exact hfresh (List.mem_append_right ids (by simp))

theorem printLoop_filter_noid (es : List Event) : ∀ ids : List String,
    (printLoop ids es).1.filter (fun e => (eventId e).isNone) =
      es.filter (fun e => (eventId e).isNone) := by
  induction es with
  | nil => intro ids; simp [printLoop]
  | cons e es ih =>
      intro ids
      cases h : eventId e with
      | none =>
          rw [printLoop_cons_none h]
          rw [List.filter_cons, List.filter_cons]
          simp [h, ih ids]
      | some j =>
          cases hc : ids.contains j with
          | true =>
              rw [printLoop_cons_dup h hc]
              rw [List.filter_cons]
              simp [h, ih ids]
          | false =>
              rw [printLoop_cons_new h hc]
              rw [List.filter_cons, List.filter_cons]
              simp [h, ih (ids ++ [j])]

/-- Session-level invariant: the dedup set after a session equals the
starting set extended by exactly the emitted identifiers, which are
distinct among themselves and disjoint from the starting set. -/
theorem eventListSession_spec (snaps : List QueryResult) :
    ∀ ids : List String,
    (eventListSession ids snaps).2 =
      ids ++ (eventListSession ids snaps).1.filterMap eventId ∧
    ((eventListSession ids snaps).1.filterMap eventId).Nodup ∧
    (∀ i ∈ (eventListSession ids snaps).1.filterMap eventId,
      ids.contains i = false) := by
  induction snaps with
  | nil => intro ids; simp [eventListSession]
  | cons r rs ih =>
      intro ids
      rcases ih (eventListPrint ids r).2 with ⟨hid, hnd, hfr⟩
      have hstep : (eventListPrint ids r).2 =
          ids ++ (eventListPrint ids r).1.filterMap eventId :=
        printLoop_ids_eq (sortSliceEvents r.events) ids
      have hstepnd : ((eventListPrint ids r).1.filterMap eventId).Nodup :=
        printLoop_emitted_ids_nodup (sortSliceEvents r.events) ids
      have hstepfr : ∀ i ∈ (eventListPrint ids r).1.filterMap eventId,
          ids.contains i = false := by
        intro i hmem
        rcases List.mem_filterMap.mp hmem with ⟨e', he', hid'⟩
        exact printLoop_emitted_id_fresh (sortSliceEvents r.events) ids e' he' i hid'
      refine ⟨?_, ?_, ?_⟩
      · simp only [eventListSession, List.filterMap_append]
        rw [hid, hstep, List.append_assoc]
      · simp only [eventListSession, List.filterMap_append]
        refine List.Nodup.append hstepnd hnd ?_
        intro i hi1 hi2
        have := hfr i hi2
        rw [hstep] at this
        have hmem : (ids ++ (eventListPrint ids r).1.filterMap eventId).contains i = true :=
          List.elem_iff.mpr (List.mem_append_right ids hi1)
        rw [this] at hmem
        exact Bool.false_ne_true hmem
      · simp only [eventListSession, List.filterMap_append]
        intro i hi
        rcases List.mem_append.mp hi with hi | hi
        · exact hstepfr i hi
        · have hf := hfr i hi
          rw [hstep] at hf
          cases h2 : ids.contains i with
          | false => rfl
          | true =>
              have hmem : i ∈ ids := List.elem_iff.mp h2
              have hmem2 : (ids ++ (eventListPrint ids r).1.filterMap eventId).contains i = true :=
                List.elem_iff.mpr (List.mem_append_left _ hmem)
              rw [hf] at hmem2
              exact absurd hmem2 (by simp)

/-- An event carrying identifier "e1", used in the C2 witness. -/
def evE1 : Event := [("@id", Value.str "e1")]

/-- An event carrying identifier "e2", used in the C2 witness. -/
def evE2 : Event := [("@id", Value.str "e2")]

/-- A snapshot holding the two identified events above. -/
def snapDup : QueryResult :=
  { done := false, metadata := mdZero, events := [evE1, evE2] }

/-- Claim C2: in event-list mode, an event whose identifier is already in
the session's dedup set is not emitted; an event without an identifier is
emitted at every occurrence (the idless events emitted for a snapshot are
exactly the idless events of the snapshot); the set after a print call is
the set before extended by exactly the emitted identifiers (so every
emitted identifier is recorded and the set grows monotonically); and
starting a session from the empty set, the identifiers emitted over the
whole session are pairwise distinct, so each distinct identifier is
printed at most once per session. -/
theorem eventList_c2_dedup (ids : List String) (r : QueryResult)
    (snaps : List QueryResult) :
    (∀ e ∈ (eventListPrint ids r).1, ∀ i, eventId e = some i → i ∉ ids) ∧
    ((eventListPrint ids r).1.filter (fun e => (eventId e).isNone)).Perm
      (r.events.filter (fun e => (eventId e).isNone)) ∧
    ((eventListPrint ids r).2 =
      ids ++ (eventListPrint ids r).1.filterMap eventId) ∧
    ((eventListSession [] snaps).1.filterMap eventId).Nodup := by
  refine ⟨?_, ?_, printLoop_ids_eq (sortSliceEvents r.events) ids,
    (eventListSession_spec snaps []).2.1⟩
  · intro e he i hi
    have h := printLoop_emitted_id_fresh (sortSliceEvents r.events) ids e he i hi
    exact contains_false_iff.mp h
  · show ((printLoop ids (sortSliceEvents r.events)).1.filter
      (fun e => (eventId e).isNone)).Perm _
    rw [printLoop_filter_noid (sortSliceEvents r.events) ids]
    exact (sortSliceEvents_perm r.events).filter _

/-- Witness for C2 at concrete inputs: with "e1" already recorded, the
snapshot containing events with identifiers "e1" and "e2" emits only the
"e2" event; the set returned is the old set plus the emitted identifier;
a session replaying the same snapshot twice emits distinct identifiers
only. -/
theorem eventList_c2_witness :
    (eventListPrint ["e1"] snapDup).1 = [evE2] ∧
    (eventListPrint ["e1"] snapDup).2 = ["e1", "e2"] ∧
    ((eventListSession [] [snapDup, snapDup]).1.filterMap eventId).Nodup := by
  refine ⟨by decide, ?_, (eventList_c2_dedup ["e1"] snapDup [snapDup, snapDup]).2.2.2⟩
  have h := (eventList_c2_dedup ["e1"] snapDup [snapDup, snapDup]).2.2.1
  rw [h]
  decide


/-! ## Aggregate printer: column derivation (search.go:428-443)

`aggregatePrinter.print` keeps `p.columns` across calls.  When the
snapshot carries no explicit field order it scans every row's fields,
appending each key not yet in the per-call map `m` to both the column
list and `m` — note that `m` starts empty on every call and is NOT
seeded with the already-known columns. -/

/-- One step of the inner field loop (`if !m[k] { f = append(f, k);
m[k] = true }`); state is the pair (columns-so-far, per-call seen set). -/
def aggScanField (fm : List String × List String) (k : String) :
    List String × List String :=
  if fm.2.contains k then fm else (fm.1 ++ [k], fm.2 ++ [k])

/-- The `for k := range e` loop over one row's fields (Go map iteration
order is unspecified; the association-list order stands for one such
order). -/
def aggScanEvent (fm : List String × List String) (e : Event) :
    List String × List String :=
  e.foldl (fun fm kv => aggScanField fm kv.1) fm

/-- The column update performed by `aggregatePrinter.print`
(search.go:429-443): the explicit field order verbatim when nonempty,
otherwise the result of scanning all rows starting from the known
columns and an empty per-call seen set. -/
def aggregateColumns (cols : List String) (r : QueryResult) : List String :=
  if r.metadata.fieldOrder.length > 0 then r.metadata.fieldOrder
  else (r.events.foldl aggScanEvent (cols, [])).1

/-- A snapshot whose single event has keys "a" and "b" (no explicit
field order). -/
def snapAggAB : QueryResult :=
  { done := false, metadata := mdZero
    events := [[("a", Value.num 1), ("b", Value.num 2)]] }

/-- A snapshot whose single event has keys "a" and "c". -/
def snapAggAC : QueryResult :=
  { done := false, metadata := mdZero
    events := [[("a", Value.num 1), ("c", Value.num 3)]] }

/-- A snapshot whose single event has only the key "c". -/
def snapAggC : QueryResult :=
  { done := false, metadata := mdZero, events := [[("c", Value.num 3)]] }

/-- Counterexample to claim C4: the per-call seen set starts empty and
does not include the already-known columns, so a second print call whose
events repeat the known key "a" appends "a" again: the derived column
list becomes ["a", "b", "a", "c"], duplicating a column name already
known. -/
theorem aggregate_c4_counterexample :
    aggregateColumns (aggregateColumns [] snapAggAB) snapAggAC =
      ["a", "b", "a", "c"] ∧
    ¬ (aggregateColumns (aggregateColumns [] snapAggAB) snapAggAC).Nodup := by
  exact ⟨by decide, by decide⟩

theorem aggScanField_fold_spec (ks : List (String × Value)) :
    ∀ f m : List String, m.Nodup →
    ∃ t, ks.foldl (fun fm kv => aggScanField fm kv.1) (f, m) =
        (f ++ t, m ++ t) ∧
      (m ++ t).Nodup ∧ ∀ k ∈ t, k ∈ ks.map Prod.fst := by
  induction ks with
  | nil =>
      intro f m hm
      exact ⟨[], by simp, by simpa using hm, by simp⟩
  | cons kv ks ih =>
      intro f m hm
      simp only [List.foldl_cons]
      by_cases hc : m.contains kv.1 = true
      · have hstep : aggScanField (f, m) kv.1 = (f, m) := by
          have hm2 : kv.1 ∈ m := List.elem_iff.mp hc
          simp [aggScanField, hm2]
        rw [hstep]
        rcases ih f m hm with ⟨t, heq, hnd, hmem⟩
        exact ⟨t, heq, hnd, fun k hk => by simp [hmem k hk]⟩
      · have hc' : m.contains kv.1 = false := by
          cases h2 : m.contains kv.1 with
          | true => exact absurd h2 hc
          | false => rfl
        have hstep : aggScanField (f, m) kv.1 = (f ++ [kv.1], m ++ [kv.1]) := by
          have hm2 : kv.1 ∉ m := contains_false_iff.mp hc'
          simp [aggScanField, hm2]
        rw [hstep]
        have hm' : (m ++ [kv.1]).Nodup := by
          refine List.Nodup.append hm (by simp) ?_
          intro x hx1 hx2
          rcases List.mem_singleton.mp hx2 with rfl
          exact contains_false_iff.mp hc' hx1
        rcases ih (f ++ [kv.1]) (m ++ [kv.1]) hm' with ⟨t, heq, hnd, hmem⟩
        refine ⟨kv.1 :: t, ?_, ?_, ?_⟩
        · rw [heq]
          simp
        · simpa using hnd
        · intro k hk
          rcases List.mem_cons.mp hk with rfl | hk
          · simp
          · simp [hmem k hk]

theorem aggScanEvent_fold_spec (es : List Event) :
    ∀ f m : List String, m.Nodup →
    ∃ t, es.foldl aggScanEvent (f, m) = (f ++ t, m ++ t) ∧
      (m ++ t).Nodup ∧ ∀ k ∈ t, ∃ e ∈ es, k ∈ e.map Prod.fst := by
  induction es with
  | nil =>
      intro f m hm
      exact ⟨[], by simp, by simpa using hm, by simp⟩
  | cons e es ih =>
      intro f m hm
      simp only [List.foldl_cons]
      rcases aggScanField_fold_spec e f m hm with ⟨t1, heq1, hnd1, hmem1⟩
      have : aggScanEvent (f, m) e =
          (f ++ t1, m ++ t1) := heq1
      rw [this]
      rcases ih (f ++ t1) (m ++ t1) hnd1 with ⟨t2, heq2, hnd2, hmem2⟩
      refine ⟨t1 ++ t2, ?_, ?_, ?_⟩
      · rw [heq2]
        simp
      · simpa using hnd2
      · intro k hk
        rcases List.mem_append.mp hk with hk | hk
        · exact ⟨e, by simp, hmem1 k hk⟩
        · rcases hmem2 k hk with ⟨e2, he2, hke2⟩
          exact ⟨e2, by simp [he2], hke2⟩

/-- Claim C4 (amended): when the snapshot metadata supplies no explicit
field order, the renderer appends newly scanned keys after the unchanged
known column prefix, in first-seen scan order, without duplicates among
the keys appended within one print call, each appended key occurring in
some row of the snapshot.  The per-call seen set is not seeded with the
already-known columns, so a key known from an earlier call is appended
again when it reappears; in the claim's example, where the later call's
events contain only the new key "c", the result is exactly
["a", "b", "c"] with the known prefix unchanged. -/
theorem aggregatePrinter_c4_amended (cols : List String) (r : QueryResult)
    (h : r.metadata.fieldOrder = []) :
    ∃ t, aggregateColumns cols r = cols ++ t ∧ t.Nodup ∧
      ∀ k ∈ t, ∃ e ∈ r.events, k ∈ e.map Prod.fst := by
  rcases aggScanEvent_fold_spec r.events cols [] (by simp) with ⟨t, heq, hnd, hmem⟩
  refine ⟨t, ?_, by simpa using hnd, hmem⟩
  unfold aggregateColumns
  rw [h]
  simp only [List.length_nil, gt_iff_lt, lt_self_iff_false, if_false]
  rw [heq]

/-- Witness for the amended C4: the first call on a row with keys
"a", "b" derives ["a", "b"]; a later call whose row has only the new key
"c" extends it to exactly ["a", "b", "c"]. -/
theorem aggregatePrinter_c4_amended_witness :
    aggregateColumns [] snapAggAB = ["a", "b"] ∧
    aggregateColumns ["a", "b"] snapAggC = ["a", "b", "c"] ∧
    ∃ t, aggregateColumns ["a", "b"] snapAggC = ["a", "b"] ++ t ∧ t.Nodup ∧
      ∀ k ∈ t, ∃ e ∈ snapAggC.events, k ∈ e.map Prod.fst :=
  ⟨by decide, by decide, aggregatePrinter_c4_amended ["a", "b"] snapAggC rfl⟩


/-! ## Progress reporting (search.go:183-284)

The terminal progress bar stores two throughput floats initialised to
`math.NaN()`; the NaN sentinel is modelled as `Option.none`.  The
rendered-info callbacks return the empty string while the sentinel is in
place.  The JSON progress record instead uses zero-initialised local
floats that stay `0` when `TimeMillis` is zero. -/

/-- Throughput state of `queryResultProgressBar` (the `prompt.ProgressBar`
display object itself is outside the modelled core). -/
structure QueryResultProgressBar where
  epsValue : Option Rat
  bpsValue : Option Rat
  hits : Nat
deriving DecidableEq, Repr

/-- `newQueryResultProgressBar` (search.go:190-202): both throughput
values start at the NaN sentinel. -/
def newQueryResultProgressBar : QueryResultProgressBar :=
  { epsValue := none, bpsValue := none, hits := 0 }

/-- `queryResultProgressBar.Update` (search.go:204-213): throughput is
recomputed only when `TimeMillis > 0`; otherwise the stored values are
left as they are.  The hit count is always refreshed. -/
def progressBarUpdate (b : QueryResultProgressBar) (r : QueryResult) :
    QueryResultProgressBar :=
  let b :=
    if r.metadata.timeMillis > 0 then
      { b with
        epsValue := some ((r.metadata.processedEvents : Rat) /
          (r.metadata.timeMillis : Rat) * 1000)
        bpsValue := some ((r.metadata.processedBytes : Rat) /
          (r.metadata.timeMillis : Rat) * 1000) }
    else b
  { b with hits := r.metadata.eventCount }

/-- The SI suffixes used when scaling displayed quantities. -/
def siSuffixes : List String := ["", "k", "M", "G", "T", "P", "E"]

def addSISuffixGo (v : Rat) (base : Rat) : List String → Rat × String
  | [] => (v, "")
  | [sfx] => (v, sfx)
  | sfx :: rest => if v < base then (v, sfx) else addSISuffixGo (v / base) base rest

/-- Modelled from the spec: `prompt.AddSISuffix` belongs to the `prompt`
package, which is not under `src/`; the spec describes the progress-bar
annotations only as throughput figures with appended SI text, so the
scaling is modelled as repeated division by 1000 (1024 in binary mode)
with the matching SI suffix. -/
def addSISuffix (v : Rat) (binary : Bool) : Rat × String :=
  addSISuffixGo v (if binary then 1024 else 1000) siSuffixes

/-- Go's `%.1f` directive: the value rounded to one decimal digit
(rounding of exact halves approximated as round-half-up; Go rounds
half-to-even, a difference not exercised here). -/
def fmtF1 (q : Rat) : String :=
  let n : Int := round (q * 10)
  let sign := if n < 0 then "-" else ""
  let a := n.natAbs
  sign ++ toString (a / 10) ++ "." ++ toString (a % 10)

/-- `queryResultProgressBar.additionalInfoEps` (search.go:215-221). -/
def additionalInfoEps (b : QueryResultProgressBar) : String :=
  match b.epsValue with
  | none => ""
  | some v =>
      let vs := addSISuffix v false
      fmtF1 vs.1 ++ " " ++ vs.2 ++ " events/s"

/-- `queryResultProgressBar.additionalInfoBps` (search.go:223-229). -/
def additionalInfoBps (b : QueryResultProgressBar) : String :=
  match b.bpsValue with
  | none => ""
  | some v =>
      let vs := addSISuffix v true
      fmtF1 vs.1 ++ " " ++ vs.2 ++ "B/s"

/-- The `queryResultProgressJson` struct (search.go:240-254); the Go
fields `Start`/`End` are named `queryStart`/`queryEnd` here because `end`
is reserved in Lean.  JSON keys and order follow the struct tags. -/
structure QueryResultProgressJson where
  timestamp : Int
  startMillis : Int
  repo : String
  queryString : String
  queryStart : Nat
  queryEnd : Nat
  totalWork : Nat
  workDone : Nat
  timeMillis : Nat
  epsValue : Rat
  bpsValue : Rat
  eventCount : Nat
  done : Bool
deriving DecidableEq, Repr

/-- The record built by `printQueryResultProgressJson` (search.go:256-281):
the two throughput locals are zero-initialised and computed only when
`TimeMillis > 0`. -/
def printQueryResultProgressJsonRecord (result : QueryResult)
    (args : List String) (startMillis timestamp : Int) :
    QueryResultProgressJson :=
  let epsValue : Rat :=
    if result.metadata.timeMillis > 0 then
      (result.metadata.processedEvents : Rat) /
        (result.metadata.timeMillis : Rat) * 1000
    else 0
  let bpsValue : Rat :=
    if result.metadata.timeMillis > 0 then
      (result.metadata.processedBytes : Rat) /
        (result.metadata.timeMillis : Rat) * 1000
    else 0
  { timestamp := timestamp
    startMillis := startMillis
    repo := args.getD 0 ""
    queryString := args.getD 1 ""
    queryStart := result.metadata.queryStart
    queryEnd := result.metadata.queryEnd
    totalWork := result.metadata.totalWork
    workDone := result.metadata.workDone
    timeMillis := result.metadata.timeMillis
    epsValue := epsValue
    bpsValue := bpsValue
    eventCount := result.metadata.eventCount
    done := result.done }

/-- JSON string escaping for the quote and backslash characters (Go's
encoder additionally escapes control characters and, by default, the
HTML characters, none of which occur in the strings considered here). -/
def jsonEscape (s : String) : String :=
  String.join (s.data.map (fun c =>
    if c = '"' then "\\\"" else if c = '\\' then "\\\\" else String.singleton c))

def jsonQuote (s : String) : String := "\"" ++ jsonEscape s ++ "\""

/-- Decimal digits of the fractional part `rem/den`, up to `fuel`
digits. -/
def fracDigits (rem den : Nat) : Nat → String
  | 0 => ""
  | fuel + 1 =>
      if rem = 0 then ""
      else toString (rem * 10 / den) ++ fracDigits (rem * 10 % den) den fuel

/-- Go `encoding/json` float64 encoding, exact on integer-valued
quantities (printed as a plain integer, as Go does for the magnitudes
arising here); non-integer values are rendered as a plain decimal
expansion of up to 17 digits, an approximation of Go's
shortest-round-trip formatting that the theorems below never rely on. -/
def jsonRat (q : Rat) : String :=
  if q.den = 1 then toString q.num
  else
    (if q < 0 then "-" else "") ++ toString (q.num.natAbs / q.den) ++ "." ++
      fracDigits (q.num.natAbs % q.den) q.den 17

/-- `json.Marshal` of a `queryResultProgressJson` record: fields in
declaration order under their struct-tag names. -/
def renderProgressJson (j : QueryResultProgressJson) : String :=
  "\x7b\"timestamp\":" ++ toString j.timestamp ++
  ",\"startMillis\":" ++ toString j.startMillis ++
  ",\"repo\":" ++ jsonQuote j.repo ++
  ",\"queryString\":" ++ jsonQuote j.queryString ++
  ",\"start\":" ++ toString j.queryStart ++
  ",\"end\":" ++ toString j.queryEnd ++
  ",\"totalWork\":" ++ toString j.totalWork ++
  ",\"workDone\":" ++ toString j.workDone ++
  ",\"timeMillis\":" ++ toString j.timeMillis ++
  ",\"epsValue\":" ++ jsonRat j.epsValue ++
  ",\"bpsValue\":" ++ jsonRat j.bpsValue ++
  ",\"eventCount\":" ++ toString j.eventCount ++
  ",\"done\":" ++ (if j.done then "true" else "false") ++ "\x7d"

/-- `printQueryResultProgressJson` (search.go:256-284): the single-line
JSON progress record for one snapshot (`json.Marshal` cannot fail on
this record, so the Go error result is always nil). -/
def printQueryResultProgressJson (result : QueryResult) (args : List String)
    (startMillis timestamp : Int) : String :=
  renderProgressJson
    (printQueryResultProgressJsonRecord result args startMillis timestamp)

/-- A snapshot with `TimeMillis = 0`. -/
def snapTM0 : QueryResult :=
  { done := false, metadata := mdZero, events := [] }

/-- A snapshot with `TimeMillis = 100` and 500 processed events. -/
def snapTM100 : QueryResult :=
  { done := false
    metadata := { mdZero with timeMillis := 100, processedEvents := 500 }
    events := [] }

set_option maxRecDepth 40000 in
/-- Counterexample to claim C5: for a snapshot with `TimeMillis = 0` the
JSON progress record renders both throughput fields as the text `0` (the
zero-initialised locals are marshalled unconditionally — no omitempty),
not as absent/empty; and the progress-bar annotation after an earlier
snapshot with `TimeMillis > 0` keeps showing the stale figure for a
`TimeMillis = 0` snapshot instead of suppressing it. -/
theorem progress_c5_counterexample :
    printQueryResultProgressJson snapTM0 ["myrepo", "q"] 1000 2000 =
      "\x7b\"timestamp\":2000,\"startMillis\":1000,\"repo\":\"myrepo\"," ++
      "\"queryString\":\"q\",\"start\":0,\"end\":0,\"totalWork\":0," ++
      "\"workDone\":0,\"timeMillis\":0,\"epsValue\":0,\"bpsValue\":0," ++
      "\"eventCount\":0,\"done\":false\x7d" ∧
    snapTM0.metadata.timeMillis = 0 ∧
    additionalInfoEps (progressBarUpdate
      (progressBarUpdate newQueryResultProgressBar snapTM100) snapTM0) =
      "5.0 k events/s" := by
  refine ⟨by decide, rfl, ?_⟩
  have hb : progressBarUpdate
      (progressBarUpdate newQueryResultProgressBar snapTM100) snapTM0 =
      { epsValue := some 5000, bpsValue := some 0, hits := 0 } := by
    simp [progressBarUpdate, snapTM100, snapTM0, mdZero, newQueryResultProgressBar]
    norm_num
  rw [hb]
  have hsi : addSISuffix 5000 false = (5, "k") := by
    simp [addSISuffix, addSISuffixGo, siSuffixes]
    norm_num
  have hf : fmtF1 5 = "5.0" := by
    have hr : round ((5 : Rat) * 10) = (50 : Int) := by norm_num
    simp only [fmtF1, hr]
    decide
  simp [additionalInfoEps, hsi, hf]

/-- Claim C5 (amended): when `TimeMillis > 0` both throughput figures
equal `processedQuantity / timeMillis * 1000`.  In the terminal progress
bar the figures start at a NaN sentinel, an update with
`TimeMillis = 0` leaves the stored figures unchanged — whatever state
the bar is in, so a figure from an earlier `TimeMillis > 0` snapshot
keeps being shown — and the two rendered-info callbacks emit the empty
string exactly while the sentinel is in place and otherwise a scaled
figure with an SI-suffix unit, never the bare text `0` or `NaN`.  The
structured JSON record always carries both throughput fields, which
equal `0` when `TimeMillis` is `0`. -/
theorem progress_c5_amended (b : QueryResultProgressBar) (r : QueryResult)
    (args : List String) (startMillis timestamp : Int) :
    (newQueryResultProgressBar.epsValue = none ∧
      newQueryResultProgressBar.bpsValue = none) ∧
    ((progressBarUpdate b r).epsValue = none → r.metadata.timeMillis = 0) ∧
    (r.metadata.timeMillis = 0 →
      (progressBarUpdate b r).epsValue = b.epsValue ∧
      (progressBarUpdate b r).bpsValue = b.bpsValue) ∧
    (0 < r.metadata.timeMillis →
      (progressBarUpdate b r).epsValue =
        some ((r.metadata.processedEvents : Rat) /
          (r.metadata.timeMillis : Rat) * 1000) ∧
      (progressBarUpdate b r).bpsValue =
        some ((r.metadata.processedBytes : Rat) /
          (r.metadata.timeMillis : Rat) * 1000)) ∧
    (b.epsValue = none → additionalInfoEps b = "") ∧
    (b.bpsValue = none → additionalInfoBps b = "") ∧
    (∀ v, b.epsValue = some v →
      additionalInfoEps b ≠ "0" ∧ additionalInfoEps b ≠ "NaN") ∧
    ((printQueryResultProgressJsonRecord r args startMillis timestamp).epsValue =
      if 0 < r.metadata.timeMillis then
        (r.metadata.processedEvents : Rat) / (r.metadata.timeMillis : Rat) * 1000
      else 0) ∧
    ((printQueryResultProgressJsonRecord r args startMillis timestamp).bpsValue =
      if 0 < r.metadata.timeMillis then
        (r.metadata.processedBytes : Rat) / (r.metadata.timeMillis : Rat) * 1000
      else 0) := by
  refine ⟨⟨rfl, rfl⟩, ?_, ?_, ?_, ?_, ?_, ?_, ?_, ?_⟩
  · intro h
    by_contra htm
    have htm' : 0 < r.metadata.timeMillis := Nat.pos_of_ne_zero htm
    simp [progressBarUpdate, htm'] at h
  · intro h
    simp [progressBarUpdate, h]
  · intro h
    simp [progressBarUpdate, h]
  · intro h
    simp [additionalInfoEps, h]
  · intro h
    simp [additionalInfoBps, h]
  · intro v hv
    have hform : additionalInfoEps b =
        fmtF1 (addSISuffix v false).1 ++ " " ++ (addSISuffix v false).2 ++
          " events/s" := by
      simp [additionalInfoEps, hv]
    have h1 : (" " : String).length = 1 := rfl
    have h9 : (" events/s" : String).length = 9 := rfl
    constructor
    · intro hbad
      rw [hform] at hbad
      have hlen := congrArg String.length hbad
      simp only [String.length_append] at hlen
      rw [h1, h9] at hlen
      have h0 : ("0" : String).length = 1 := rfl
      rw [h0] at hlen
      omega
    · intro hbad
      rw [hform] at hbad
      have hlen := congrArg String.length hbad
      simp only [String.length_append] at hlen
      rw [h1, h9] at hlen
      have h3 : ("NaN" : String).length = 3 := rfl
      rw [h3] at hlen
      omega
  · rfl
  · rfl

/-- Witness for the amended C5 at concrete inputs: a fresh bar renders
empty annotations; the stale bar obtained from the `TimeMillis = 100`
snapshot keeps its figure across a `TimeMillis = 0` update and renders
neither "0" nor "NaN"; the JSON record of the `TimeMillis = 100`
snapshot carries `epsValue = 500 / 100 * 1000`. -/
theorem progress_c5_amended_witness :
    additionalInfoEps newQueryResultProgressBar = "" ∧
    (progressBarUpdate (progressBarUpdate newQueryResultProgressBar snapTM100)
        snapTM0).epsValue =
      (progressBarUpdate newQueryResultProgressBar snapTM100).epsValue ∧
    additionalInfoEps (progressBarUpdate newQueryResultProgressBar snapTM100)
      ≠ "0" ∧
    (printQueryResultProgressJsonRecord snapTM100 ["myrepo", "q"] 1000 2000).epsValue
      = (500 : Rat) / 100 * 1000 := by
  have hfresh := progress_c5_amended newQueryResultProgressBar snapTM100
    ["myrepo", "q"] 1000 2000
  have hstale := progress_c5_amended
    (progressBarUpdate newQueryResultProgressBar snapTM100) snapTM0
    ["myrepo", "q"] 1000 2000
  refine ⟨hfresh.2.2.2.2.1 rfl, (hstale.2.2.1 rfl).1, ?_, ?_⟩
  · have hv : (progressBarUpdate newQueryResultProgressBar snapTM100).epsValue
        = some 5000 := by
      have h := hfresh.2.2.2.1 (by decide)
      rw [h.1]
      norm_num [snapTM100, mdZero]
    exact (hstale.2.2.2.2.2.2.1 5000 hv).1
  · have h2 := hfresh.2.2.2.2.2.2.2.1
    rw [h2]
    norm_num [snapTM100, mdZero]

/-! ## Event-list format compilation (search.go:310-385)

`newEventListPrinter` rewrites the user template with the regular
expression matching a brace-enclosed, nonempty, close-brace-free group:
each match is replaced by a Go formatting directive built as
percent + modifier + s, while the matched field name is recorded in
template order.  `initPrintFunc` then renders an event by formatting
every recorded field and interpolating with `fmt.Fprintf`.
The brace characters are named via their code points so that no string
literal here contains a brace. -/

/-- The opening brace character. -/
def lbrace : Char := Char.ofNat 123

/-- The closing brace character. -/
def rbrace : Char := Char.ofNat 125

/-- Split a character list at the first closing brace: the characters
before it and the characters after it, or `none` when there is no
closing brace. -/
def splitAtRBrace : List Char → Option (List Char × List Char)
  | [] => none
  | c :: cs =>
      if c = rbrace then some ([], cs)
      else
        match splitAtRBrace cs with
        | none => none
        | some (a, b) => some (c :: a, b)

/-- `strings.SplitN(field, ":", 2)`: the characters before the first
colon and those after it (everything when there is no colon, matching
the no-modifier case, whose directive is the same as an empty
modifier's). -/
def splitColonAux : List Char → List Char × List Char
  | [] => ([], [])
  | c :: cs =>
      if c = ':' then ([], cs)
      else
        let r := splitColonAux cs
        (c :: r.1, r.2)

theorem splitAtRBrace_length : ∀ (cs a b : List Char),
    splitAtRBrace cs = some (a, b) → b.length < cs.length := by
  intro cs
  induction cs with
  | nil => intro a b h; simp [splitAtRBrace] at h
  | cons c cs ih =>
      intro a b h
      unfold splitAtRBrace at h
      by_cases hc : c = rbrace
      · rw [if_pos hc] at h
        injection h with h2
        injection h2 with _ hb
        subst hb
        simp
      · rw [if_neg hc] at h
        cases h2 : splitAtRBrace cs with
        | none => rw [h2] at h; cases h
        | some ab =>
            rcases ab with ⟨a2, b2⟩
            rw [h2] at h
            injection h with h3
            rw [Prod.mk.injEq] at h3
            rcases h3 with ⟨h3a, h3b⟩
            rw [← h3b]
            have h5 := ih a2 b2 h2
            simp only [List.length_cons]
            omega

/-- The template scanner of `newEventListPrinter` (search.go:339-351):
returns the characters of the rewritten format string and the recorded
field names, in template order.  A brace group with a nonempty,
close-brace-free body becomes a directive and a recorded field (the
regular expression's leftmost match); any other character is copied
unchanged. -/
def compileFmtAux : List Char → List Char × List String
  | [] => ([], [])
  | c :: cs =>
      if c = lbrace then
        match h : splitAtRBrace cs with
        | some (inner, rest) =>
            if inner = [] then
              let r := compileFmtAux cs
              (c :: r.1, r.2)
            else
              let fa := splitColonAux inner
              let r := compileFmtAux rest
              ('%' :: fa.2 ++ 's' :: r.1, String.mk fa.1 :: r.2)
        | none =>
            let r := compileFmtAux cs
            (c :: r.1, r.2)
      else
        let r := compileFmtAux cs
        (c :: r.1, r.2)
termination_by l => l.length
decreasing_by
  · simp
  · simp
    exact Nat.lt_succ_of_lt (splitAtRBrace_length _ _ _ h)
  · simp
  · simp

/-- The compiled state of an `eventListPrinter` (search.go:325-355):
the dedup set, the recorded fields and the rewritten format string. -/
structure EventListPrinter where
  printedIds : List String
  printFields : List String
  fmt : String
deriving DecidableEq, Repr

/-- `newEventListPrinter` (search.go:333-355). -/
def newEventListPrinter (fmtStr : String) : EventListPrinter :=
  let c := compileFmtAux fmtStr.data
  { printedIds := [], printFields := c.2, fmt := String.mk c.1 }

/-- Go `int64(fv)`: truncation of a float64 value toward zero. -/
def goInt64OfRat (q : Rat) : Int :=
  if q < 0 then Int.ceil q else Int.floor q

/-- Two-digit zero-padded decimal. -/
def pad2 (n : Nat) : String :=
  if n < 10 then "0" ++ toString n else toString n

/-- Four-digit zero-padded year (negative years, which no claim
exercises, keep a leading minus). -/
def pad4year (y : Int) : String :=
  let a := y.natAbs
  let digits := toString a
  let padded :=
    if a < 10 then "000" ++ digits
    else if a < 100 then "00" ++ digits
    else if a < 1000 then "0" ++ digits
    else digits
  (if y < 0 then "-" else "") ++ padded

/-- Gregorian date from days since the Unix epoch (standard civil
calendar conversion, floor divisions). -/
def civilFromDays (z0 : Int) : Int × Nat × Nat :=
  let z := z0 + 719468
  let era := z.ediv 146097
  let doe := (z - era * 146097).toNat
  let yoe := (doe - doe / 1460 + doe / 36524 - doe / 146096) / 365
  let y := (yoe : Int) + era * 400
  let doy := doe - (365 * yoe + yoe / 4 - yoe / 100)
  let mp := (5 * doy + 2) / 153
  let d := doy - (153 * mp + 2) / 5 + 1
  let m := if mp < 10 then mp + 3 else mp - 9
  (if m ≤ 2 then y + 1 else y, m, d)

/-- Strip trailing zero characters. -/
def dropTrailingZeros (s : List Char) : List Char :=
  (s.reverse.dropWhile (fun c => c = '0')).reverse

/-- Nine-digit fractional-second part, trailing zeros trimmed, empty for
zero (the `.999999999` unit of the RFC3339Nano layout). -/
def fracNanos (n : Nat) : String :=
  if n = 0 then ""
  else
    let d := toString n
    let s9 := String.mk (List.replicate (9 - d.length) '0') ++ d
    "." ++ String.mk (dropTrailingZeros s9.data)

/-- `time.Time.Format(time.RFC3339Nano)` of the instant `ns` nanoseconds
after the Unix epoch.  Go formats in the process's local time zone; this
models a process running with TZ=UTC, under which the zone suffix is
"Z". -/
def formatRFC3339NanoUTC (ns : Int) : String :=
  let s := ns.ediv 1000000000
  let frac := (ns.emod 1000000000).toNat
  let days := s.ediv 86400
  let rem := (s.emod 86400).toNat
  let ymd := civilFromDays days
  pad4year ymd.1 ++ "-" ++ pad2 ymd.2.1 ++ "-" ++ pad2 ymd.2.2 ++ "T" ++
    pad2 (rem / 3600) ++ ":" ++ pad2 (rem % 3600 / 60) ++ ":" ++
    pad2 (rem % 60) ++ fracNanos frac ++ "Z"

/-- The `"@timestamp"` entry of the `fieldPrinters` registry
(search.go:310-323): a numeric value is split into seconds and
milliseconds with Go's truncated integer division and rendered as an
RFC3339Nano instant; any other value (including a missing field) is
rejected. -/
def timestampFieldPrinter (v : Option Value) : Option String :=
  match v with
  | some (.num fv) =>
      let iv := goInt64OfRat fv
      let sec := iv.tdiv 1000
      let msec := iv.tmod 1000
      some (formatRFC3339NanoUTC (sec * 1000000000 + msec * 1000000))
  | _ => none

/-- The `fieldPrinters` registry (search.go:310), a map with the single
`"@timestamp"` entry. -/
def fieldPrinters (f : String) : Option (Option Value → Option String) :=
  if f = "@timestamp" then some timestampFieldPrinter else none

/-- Go's `%v` float64 formatting, exact on integer values of magnitude
below 10^21 (printed as plain digits, as Go's shortest-round-trip `%g`
does there); other numeric shapes fall back to the decimal expansion,
an approximation no theorem below relies on. -/
def goFloatString (q : Rat) : String :=
  if q.den = 1 ∧ q.num.natAbs < 10 ^ 21 then toString q.num else jsonRat q

/-- `fmt.Sprint` of the interface value stored under a field: a missing
field or a JSON null is the nil interface, printed as Go prints nil. -/
def goSprint : Option Value → String
  | none => "<nil>"
  | some (.str s) => s
  | some (.num q) => goFloatString q
  | some (.boolean b) => if b then "true" else "false"
  | some .null => "<nil>"

/-- One compiled per-field renderer of `initPrintFunc`
(search.go:357-376): a registry printer that accepts the value wins,
otherwise generic stringification. -/
def renderField (f : String) (e : Event) : String :=
  match fieldPrinters f with
  | some printer =>
      match printer (lookupField e f) with
      | some str => str
      | none => goSprint (lookupField e f)
  | none => goSprint (lookupField e f)

/-- Numeric value of a digit string (Go's width parsing inside `fmt`). -/
def digitsToNat (ds : List Char) : Nat :=
  ds.foldl (fun acc c => acc * 10 + (c.toNat - 48)) 0

/-- Go `fmt` width/alignment padding for the `s` verb: pad with spaces
to the requested width, on the right when the minus flag is set
(left-align), on the left otherwise (right-align). -/
def padGo (leftAlign : Bool) (width : Nat) (s : String) : String :=
  if width ≤ s.length then s
  else if leftAlign then s ++ String.mk (List.replicate (width - s.length) ' ')
  else String.mk (List.replicate (width - s.length) ' ') ++ s

/-- Parse the directive after a percent sign: an optional minus flag,
decimal width digits, then the `s` verb; `none` when the following
characters are not of that shape. -/
def parseDirective (cs : List Char) : Option (Bool × Nat × List Char) :=
  let neg := cs.head? = some '-'
  let cs1 := if neg then cs.tail else cs
  let ds := cs1.takeWhile Char.isDigit
  match cs1.drop ds.length with
  | 's' :: rest => some (neg, digitsToNat ds, rest)
  | _ => none

theorem parseDirective_length {cs : List Char} {neg : Bool} {w : Nat}
    {rest : List Char} (h : parseDirective cs = some (neg, w, rest)) :
    rest.length < cs.length := by
  simp only [parseDirective] at h
  split at h
  next rest2 heq =>
    simp only [Option.some.injEq, Prod.mk.injEq] at h
    obtain ⟨h1, h2, hrest⟩ := h
    subst hrest
    have hdrop := congrArg List.length heq
    rw [List.length_drop] at hdrop
    simp only [List.length_cons] at hdrop
    by_cases hb : cs.head? = some '-'
    · rw [if_pos hb] at hdrop
      cases cs with
      | nil => simp at hb
      | cons a as =>
          simp only [List.tail_cons] at hdrop
          simp only [List.length_cons]
          omega
    · rw [if_neg hb] at hdrop
      omega
  next => cases h

/-- The interpolation loop of `fmt.Fprintf` restricted to the directives
this compiler emits (a percent sign followed by an optional minus flag,
width digits and the `s` verb); a percent sign not starting such a
directive is copied unchanged, where Go's fmt would apply its full verb
grammar — the theorems below only use templates whose literal characters
are percent-free, so the difference is never exercised.  A directive
beyond the argument list renders Go's missing-argument noise. -/
def sprintfAux : List Char → List String → List Char
  | [], _ => []
  | c :: cs, args =>
      if c = '%' then
        match h : parseDirective cs with
        | some nwr =>
            match args with
            | a :: args2 =>
                (padGo nwr.1 nwr.2.1 a).data ++ sprintfAux nwr.2.2 args2
            | [] => "%!s(MISSING)".data ++ sprintfAux nwr.2.2 []
        | none => c :: sprintfAux cs args
      else c :: sprintfAux cs args
termination_by l _ => l.length
decreasing_by
  · exact Nat.lt_succ_of_lt (parseDirective_length h)
  · exact Nat.lt_succ_of_lt (parseDirective_length h)
  · simp
  · simp

/-- `fmt.Sprintf`-style interpolation on strings. -/
def sprintf (s : String) (args : List String) : String :=
  String.mk (sprintfAux s.data args)

/-- `printEventFunc` (search.go:378-384): format every recorded field of
the event and interpolate into the compiled format string plus a
newline. -/
def printEvent (p : EventListPrinter) (e : Event) : String :=
  sprintf (p.fmt ++ "\n") (p.printFields.map (fun f => renderField f e))

/-! ## Claim C6: structure of the format compiler

A template is described by a list of segments — literal characters and
bracketed field references — and the compiler is proved to turn exactly
the references into directives and recorded fields, in template order,
while the literal characters pass through unchanged. -/

/-- One segment of a template: a literal character, or a brace-enclosed
field reference with an optional modifier. -/
inductive TmplSeg where
  | lit (c : Char)
  | ref (field : String) (arg : Option String)
deriving DecidableEq, Repr

/-- The concrete characters of a segment. -/
def renderSeg : TmplSeg → List Char
  | .lit c => [c]
  | .ref f none => lbrace :: (f.data ++ [rbrace])
  | .ref f (some a) => lbrace :: ((f.data ++ ':' :: a.data) ++ [rbrace])

/-- The concrete characters of a whole template. -/
def renderTmpl (segs : List TmplSeg) : List Char :=
  (segs.map renderSeg).flatten

/-- Well-formedness of a segment with respect to the scanner: a literal
character is not an opening brace (it would start a group); a reference
body contains no closing brace (the regular expression's group is
close-brace-free) and its field name no colon (a colon would move
characters into the modifier); a reference without modifier has a
nonempty field (the group body must be nonempty). -/
def segWF : TmplSeg → Bool
  | .lit c => !(c = lbrace : Bool)
  | .ref f none =>
      !f.data.isEmpty && !f.data.contains rbrace && !f.data.contains ':'
  | .ref f (some a) =>
      !f.data.contains rbrace && !a.data.contains rbrace && !f.data.contains ':'

/-- The characters a segment contributes to the compiled format
string. -/
def segFmtChars : TmplSeg → List Char
  | .lit c => [c]
  | .ref _ none => ['%', 's']
  | .ref _ (some a) => '%' :: (a.data ++ ['s'])

/-- The field a segment records, if any. -/
def segField : TmplSeg → Option String
  | .lit _ => none
  | .ref f _ => some f

theorem renderTmpl_cons (sg : TmplSeg) (segs : List TmplSeg) :
    renderTmpl (sg :: segs) = renderSeg sg ++ renderTmpl segs := by
  simp [renderTmpl]

theorem splitAtRBrace_append (inner rest : List Char) (h : rbrace ∉ inner) :
    splitAtRBrace (inner ++ rbrace :: rest) = some (inner, rest) := by
  induction inner with
  | nil => simp [splitAtRBrace]
  | cons c cs ih =>
      have hc : c ≠ rbrace := by
        intro hc
        exact h (by simp [hc])
      have hcs : rbrace ∉ cs := fun hm => h (by simp [hm])
      simp only [List.cons_append, splitAtRBrace, List.append_eq]
      rw [if_neg hc, ih hcs]

theorem splitColonAux_no_colon (f : List Char) (h : (':' : Char) ∉ f) :
    splitColonAux f = (f, []) := by
  induction f with
  | nil => rfl
  | cons c cs ih =>
      have hc : c ≠ ':' := by
        intro hc
        exact h (by simp [hc])
      have hcs : (':' : Char) ∉ cs := fun hm => h (by simp [hm])
      simp only [splitColonAux]
      rw [if_neg hc, ih hcs]

theorem splitColonAux_append (f a : List Char) (h : (':' : Char) ∉ f) :
    splitColonAux (f ++ ':' :: a) = (f, a) := by
  induction f with
  | nil => simp [splitColonAux]
  | cons c cs ih =>
      have hc : c ≠ ':' := by
        intro hc
        exact h (by simp [hc])
      have hcs : (':' : Char) ∉ cs := fun hm => h (by simp [hm])
      simp only [List.cons_append, splitColonAux, List.append_eq]
      rw [if_neg hc, ih hcs]

theorem compileFmtAux_nil : compileFmtAux [] = ([], []) := by
  rw [compileFmtAux]

theorem compileFmtAux_cons_lit {c : Char} (cs : List Char) (hc : c ≠ lbrace) :
    compileFmtAux (c :: cs) =
      (c :: (compileFmtAux cs).1, (compileFmtAux cs).2) := by
  rw [compileFmtAux]
  rw [if_neg hc]

theorem compileFmtAux_ref (inner rest : List Char) (hne : inner ≠ [])
    (hnb : rbrace ∉ inner) :
    compileFmtAux (lbrace :: (inner ++ rbrace :: rest)) =
      ('%' :: (splitColonAux inner).2 ++ 's' :: (compileFmtAux rest).1,
       String.mk (splitColonAux inner).1 :: (compileFmtAux rest).2) := by
  rw [compileFmtAux]
  rw [if_pos rfl]
  split
  next inner2 rest2 heq =>
      rw [splitAtRBrace_append inner rest hnb] at heq
      injection heq with heq2
      rw [Prod.mk.injEq] at heq2
      rcases heq2 with ⟨hi, hr⟩
      subst hi
      subst hr
      rw [if_neg hne]
  next heq =>
      rw [splitAtRBrace_append inner rest hnb] at heq
      cases heq

/-- The compiler on a well-formed template: every reference becomes a
directive slot with its modifier, fields are recorded in template order,
and literal characters pass through unchanged. -/
theorem compileFmtAux_renderTmpl (segs : List TmplSeg)
    (h : ∀ sg ∈ segs, segWF sg = true) :
    compileFmtAux (renderTmpl segs) =
      ((segs.map segFmtChars).flatten, segs.filterMap segField) := by
  induction segs with
  | nil => simp [renderTmpl, compileFmtAux_nil]
  | cons sg segs ih =>
      have hsg := h sg (by simp)
      have hrest : ∀ s2 ∈ segs, segWF s2 = true := by
        intro s2 hs2
        exact h s2 (by simp [hs2])
      have ihr := ih hrest
      rw [renderTmpl_cons]
      cases sg with
      | lit c =>
          have hc : c ≠ lbrace := by
            simp [segWF] at hsg
            exact hsg
          show compileFmtAux (c :: renderTmpl segs) = _
          rw [compileFmtAux_cons_lit (renderTmpl segs) hc, ihr]
          simp [segFmtChars, segField]
      | ref f arg =>
          cases arg with
          | none =>
              simp only [segWF, Bool.and_eq_true, Bool.not_eq_true'] at hsg
              rcases hsg with ⟨⟨hfe, hfb⟩, hfc⟩
              have hfb' : rbrace ∉ f.data := contains_false_iff.mp hfb
              have hfc' : (':' : Char) ∉ f.data := contains_false_iff.mp hfc
              have hfe' : f.data ≠ [] := by
                intro he
                rw [he] at hfe
                simp [List.isEmpty] at hfe
              show compileFmtAux
                  (lbrace :: ((f.data ++ [rbrace]) ++ renderTmpl segs)) = _
              rw [List.append_assoc]
              simp only [List.singleton_append]
              rw [compileFmtAux_ref f.data (renderTmpl segs) hfe' hfb']
              rw [splitColonAux_no_colon f.data hfc', ihr]
              simp [segFmtChars, segField]
          | some a =>
              simp only [segWF, Bool.and_eq_true, Bool.not_eq_true'] at hsg
              rcases hsg with ⟨⟨hfb, hab⟩, hfc⟩
              have hfb' : rbrace ∉ f.data := contains_false_iff.mp hfb
              have hab' : rbrace ∉ a.data := contains_false_iff.mp hab
              have hfc' : (':' : Char) ∉ f.data := contains_false_iff.mp hfc
              have hinner : rbrace ∉ f.data ++ ':' :: a.data := by
                intro hm
                rcases List.mem_append.mp hm with hm | hm
                · exact hfb' hm
                · rcases List.mem_cons.mp hm with hm | hm
                  · exact absurd hm.symm (by decide)
                  · exact hab' hm
              have hne : f.data ++ ':' :: a.data ≠ [] := by
                intro he
                exact absurd (congrArg List.length he) (by simp)
              show compileFmtAux
                  (lbrace :: (((f.data ++ ':' :: a.data) ++ [rbrace]) ++
                    renderTmpl segs)) = _
              rw [List.append_assoc]
              simp only [List.singleton_append]
              rw [compileFmtAux_ref (f.data ++ ':' :: a.data)
                (renderTmpl segs) hne hinner]
              rw [splitColonAux_append f.data a.data hfc', ihr]
              simp [segFmtChars, segField]

theorem mk_data (s : String) : String.mk s.data = s := rfl

theorem padGo_false_eq (w : Nat) (s : String) :
    padGo false w s = String.mk (List.replicate (w - s.length) ' ') ++ s := by
  unfold padGo
  by_cases h : w ≤ s.length
  · rw [if_pos h, Nat.sub_eq_zero_of_le h]
    cases s with
    | mk l => rfl
  · rw [if_neg h]
    simp

theorem padGo_true_eq (w : Nat) (s : String) :
    padGo true w s = s ++ String.mk (List.replicate (w - s.length) ' ') := by
  unfold padGo
  by_cases h : w ≤ s.length
  · rw [if_pos h, Nat.sub_eq_zero_of_le h]
    cases s with
    | mk l =>
        show String.mk l = String.mk (l ++ [])
        rw [List.append_nil]
  · rw [if_neg h]
    simp

theorem sprintfAux_nil (args : List String) : sprintfAux [] args = [] := by
  rw [sprintfAux]

theorem sprintfAux_directive {cs rest : List Char} {neg : Bool} {w : Nat}
    (hp : parseDirective cs = some (neg, w, rest)) (a : String)
    (args : List String) :
    sprintfAux ('%' :: cs) (a :: args) =
      (padGo neg w a).data ++ sprintfAux rest args := by
  rw [sprintfAux]
  rw [if_pos rfl]
  split
  next nwr heq =>
      rw [hp] at heq
      injection heq with heq2
      subst heq2
      rfl
  next heq =>
      rw [hp] at heq
      cases heq

theorem takeWhile_digits {ds : List Char} (rest : List Char)
    (h : ∀ c ∈ ds, c.isDigit = true) :
    (ds ++ 's' :: rest).takeWhile Char.isDigit = ds := by
  induction ds with
  | nil =>
      simp only [List.nil_append, List.takeWhile_cons]
      have hs : ('s' : Char).isDigit = false := by decide
      rw [hs]
      simp
  | cons c cs ih =>
      have hc := h c (by simp)
      have hcs : ∀ c2 ∈ cs, c2.isDigit = true := by
        intro c2 hc2
        exact h c2 (by simp [hc2])
      simp [List.cons_append, List.takeWhile_cons, hc, ih hcs]

theorem parseDirective_digits_pos {ds : List Char} (rest : List Char)
    (h : ∀ c ∈ ds, c.isDigit = true) :
    parseDirective (ds ++ 's' :: rest) = some (false, digitsToNat ds, rest) := by
  have hhead : ¬ (ds ++ 's' :: rest).head? = some '-' := by
    cases ds with
    | nil => simp
    | cons c cs =>
        simp only [List.cons_append, List.head?_cons]
        intro hc
        injection hc with hc2
        have hd := h c (by simp)
        rw [hc2] at hd
        simp at hd
  simp only [parseDirective]
  rw [if_neg hhead]
  rw [takeWhile_digits rest h]
  rw [List.drop_left]
  rw [decide_eq_false hhead]
  rfl

theorem parseDirective_digits_neg {ds : List Char} (rest : List Char)
    (h : ∀ c ∈ ds, c.isDigit = true) :
    parseDirective ('-' :: (ds ++ 's' :: rest)) =
      some (true, digitsToNat ds, rest) := by
  have hhead : ('-' :: (ds ++ 's' :: rest)).head? = some '-' := rfl
  simp only [parseDirective]
  rw [if_pos hhead]
  simp only [List.tail_cons]
  rw [takeWhile_digits rest h]
  rw [List.drop_left]
  rw [decide_eq_true hhead]
  rfl

/-- Claim C6: the format-string compiler (run once, in the renderer's
constructor) turns each bracketed reference into a substitution slot,
recording the referenced fields in template order, while literal
characters outside braces pass through unchanged; a signed-integer
modifier selects fixed-width alignment — a positive width right-aligns
by padding with spaces on the left, a negative width left-aligns by
padding on the right, and no modifier substitutes the value as is; the
field `@timestamp`, when its value is a number, is rendered as an
RFC3339-with-nanoseconds instant via Go's truncated millisecond split,
and every other field is rendered by generic stringification of its
value. -/
theorem format_compiler_c6_spec :
    (∀ segs : List TmplSeg, (∀ sg ∈ segs, segWF sg = true) →
      newEventListPrinter (String.mk (renderTmpl segs)) =
        { printedIds := []
          printFields := segs.filterMap segField
          fmt := String.mk ((segs.map segFmtChars).flatten) }) ∧
    (∀ (ds : List Char) (s : String), ds ≠ [] →
      (∀ c ∈ ds, c.isDigit = true) →
      sprintf (String.mk ('%' :: (ds ++ ['s']))) [s] =
        String.mk (List.replicate (digitsToNat ds - s.length) ' ') ++ s ∧
      sprintf (String.mk ('%' :: '-' :: (ds ++ ['s']))) [s] =
        s ++ String.mk (List.replicate (digitsToNat ds - s.length) ' ')) ∧
    (∀ s : String, sprintf "%s" [s] = s) ∧
    (∀ (e : Event) (q : Rat), lookupField e "@timestamp" = some (.num q) →
      renderField "@timestamp" e =
        formatRFC3339NanoUTC ((goInt64OfRat q).tdiv 1000 * 1000000000 +
          (goInt64OfRat q).tmod 1000 * 1000000)) ∧
    (∀ (f : String) (e : Event), f ≠ "@timestamp" →
      renderField f e = goSprint (lookupField e f)) := by
  refine ⟨?_, ?_, ?_, ?_, ?_⟩
  · intro segs hwf
    unfold newEventListPrinter
    rw [show (String.mk (renderTmpl segs)).data = renderTmpl segs from rfl]
    rw [compileFmtAux_renderTmpl segs hwf]
  · intro ds s hne h
    constructor
    · unfold sprintf
      show String.mk (sprintfAux ('%' :: (ds ++ ['s'])) [s]) = _
      rw [sprintfAux_directive (parseDirective_digits_pos [] h) s []]
      rw [sprintfAux_nil, List.append_nil, mk_data, padGo_false_eq]
    · unfold sprintf
      show String.mk (sprintfAux ('%' :: ('-' :: (ds ++ ['s']))) [s]) = _
      rw [sprintfAux_directive (parseDirective_digits_neg [] h) s []]
      rw [sprintfAux_nil, List.append_nil, mk_data, padGo_true_eq]
  · intro s
    unfold sprintf
    show String.mk (sprintfAux ('%' :: ['s']) [s]) = _
    have hp : parseDirective ['s'] = some (false, digitsToNat [], []) := by
      have := @parseDirective_digits_pos [] [] (by intro c hc; cases hc)
      simpa using this
    rw [sprintfAux_directive hp s []]
    rw [sprintfAux_nil, List.append_nil, mk_data, padGo_false_eq]
    show String.mk (List.replicate (0 - s.length) ' ') ++ s = s
    rw [Nat.zero_sub]
    cases s with
    | mk l => rfl
  · intro e q hq
    simp [renderField, fieldPrinters, timestampFieldPrinter, hq]
  · intro f e hf
    simp [renderField, fieldPrinters, hf]

/-- Witness for C6 at concrete inputs: the template with a width-40
timestamp reference, a space and a plain rawstring reference compiles to
the two recorded fields and the directive string; a width-5 directive
right-aligns, its negative counterpart left-aligns. -/
theorem format_compiler_c6_witness :
    newEventListPrinter (String.mk (renderTmpl
      [TmplSeg.ref "@timestamp" (some "40"), TmplSeg.lit ' ',
       TmplSeg.ref "@rawstring" none])) =
      { printedIds := [], printFields := ["@timestamp", "@rawstring"]
        fmt := "%40s %s" } ∧
    sprintf "%5s" ["ab"] = "   ab" ∧
    sprintf "%-5s" ["ab"] = "ab   " := by
  refine ⟨?_, ?_, ?_⟩
  · rw [format_compiler_c6_spec.1
      [TmplSeg.ref "@timestamp" (some "40"), TmplSeg.lit ' ',
       TmplSeg.ref "@rawstring" none] (by decide)]
    decide
  · have h := (format_compiler_c6_spec.2.1 ['5'] "ab" (by decide)
      (by decide)).1
    rw [show ("%5s" : String) = String.mk ('%' :: (['5'] ++ ['s'])) from rfl]
    rw [h]
    decide
  · have h := (format_compiler_c6_spec.2.1 ['5'] "ab" (by decide)
      (by decide)).2
    rw [show ("%-5s" : String) =
      String.mk ('%' :: '-' :: (['5'] ++ ['s'])) from rfl]
    rw [h]
    decide

/-! ## Claim C7: the concrete template example -/

theorem sprintfAux_cons_lit {c : Char} (hc : c ≠ '%') (cs : List Char)
    (args : List String) :
    sprintfAux (c :: cs) args = c :: sprintfAux cs args := by
  rw [sprintfAux]
  rw [if_neg hc]

/-- The segments of the C7 template: a width-40 timestamp reference, a
space, a plain rawstring reference. -/
def segsC7 : List TmplSeg :=
  [TmplSeg.ref "@timestamp" (some "40"), TmplSeg.lit ' ',
   TmplSeg.ref "@rawstring" none]

/-- The template of the C7 example — the characters of
brace, "@timestamp:40", brace, space, brace, "@rawstring", brace. -/
def tmplC7 : String := String.mk (renderTmpl segsC7)

/-- The event of the C7 example. -/
def evC7 : Event :=
  [("@timestamp", Value.num 1700000000000), ("@rawstring", Value.str "hello")]

theorem compileFmtAux_c7 :
    compileFmtAux tmplC7.data = ("%40s %s".data, ["@timestamp", "@rawstring"]) := by
  rw [show tmplC7.data = renderTmpl segsC7 from rfl]
  rw [compileFmtAux_renderTmpl segsC7 (by decide)]
  decide

theorem newEventListPrinter_c7 :
    newEventListPrinter tmplC7 =
      ⟨[], ["@timestamp", "@rawstring"], "%40s %s"⟩ := by
  unfold newEventListPrinter
  rw [compileFmtAux_c7]

set_option maxRecDepth 8000 in
theorem printEvent_c7_eval :
    printEvent (newEventListPrinter tmplC7) evC7 =
      String.mk (List.replicate 20 ' ') ++ "2023-11-14T22:13:20Z hello\n" := by
  unfold printEvent
  rw [newEventListPrinter_c7]
  have hts : renderField "@timestamp" evC7 = "2023-11-14T22:13:20Z" := by
    decide
  have hraw : renderField "@rawstring" evC7 = "hello" := by decide
  show sprintf ("%40s %s" ++ "\n")
    (["@timestamp", "@rawstring"].map (fun f => renderField f evC7)) = _
  simp only [List.map_cons, List.map_nil]
  rw [hts, hraw]
  unfold sprintf
  rw [show (("%40s %s" : String) ++ "\n").data =
    '%' :: "40s %s\n".data from rfl]
  have hp1 : parseDirective "40s %s\n".data = some (false, 40, " %s\n".data) := by
    decide
  rw [sprintfAux_directive hp1 "2023-11-14T22:13:20Z" ["hello"]]
  rw [show (" %s\n" : String).data = ' ' :: "%s\n".data from rfl]
  rw [sprintfAux_cons_lit (by decide) "%s\n".data ["hello"]]
  rw [show ("%s\n" : String).data = '%' :: "s\n".data from rfl]
  have hp2 : parseDirective "s\n".data = some (false, 0, "\n".data) := by
    decide
  rw [sprintfAux_directive hp2 "hello" []]
  rw [show ("\n" : String).data = '\n' :: ([] : List Char) from rfl]
  rw [sprintfAux_cons_lit (by decide) [] []]
  rw [sprintfAux_nil]
  decide

set_option maxRecDepth 8000 in
/-- Counterexample to claim C7 as stated: formatting the example event
with the example template pads the timestamp on the LEFT (the positive
width right-aligns), so the output is not a right-padded timestamp
followed by a space and "hello". -/
theorem format_c7_counterexample :
    printEvent (newEventListPrinter tmplC7) evC7 =
      String.mk (List.replicate 20 ' ') ++ "2023-11-14T22:13:20Z hello\n" ∧
    printEvent (newEventListPrinter tmplC7) evC7 ≠
      "2023-11-14T22:13:20Z" ++ String.mk (List.replicate 20 ' ') ++
        " hello\n" := by
  refine ⟨printEvent_c7_eval, ?_⟩
  rw [printEvent_c7_eval]
  decide

set_option maxRecDepth 8000 in
/-- Claim C7 (amended): formatting the event with millisecond timestamp
1700000000000 and rawstring "hello" under the width-40 template produces
the RFC3339 timestamp string (20 characters) LEFT-padded with spaces to
40 characters (right-aligned), followed by one space, "hello" and the
newline the printer appends. -/
theorem format_c7_amended :
    tmplC7.data = [lbrace] ++ "@timestamp:40".data ++ [rbrace] ++ " ".data ++
      [lbrace] ++ "@rawstring".data ++ [rbrace] ∧
    (newEventListPrinter tmplC7).printFields = ["@timestamp", "@rawstring"] ∧
    (newEventListPrinter tmplC7).fmt = "%40s %s" ∧
    printEvent (newEventListPrinter tmplC7) evC7 =
      String.mk (List.replicate 20 ' ') ++ "2023-11-14T22:13:20Z hello\n" ∧
    ("2023-11-14T22:13:20Z" : String).length = 20 ∧
    (String.mk (List.replicate 20 ' ') ++
      ("2023-11-14T22:13:20Z" : String)).length = 40 := by
  refine ⟨by decide, ?_, ?_, printEvent_c7_eval, by decide, by decide⟩
  · rw [newEventListPrinter_c7]
  · rw [newEventListPrinter_c7]

/-! ## The search session loop (search.go:38-152)

The `Run` body is modelled as a pure function of the flag values and the
finite observed sequence of poll responses; its result is the ordered
list of output actions and how the run ends.  Lines 49-51 force
`noProgress` when `jsonProgress` is set; the main loop (lines 99-111)
updates the bar and prints a JSON line per non-final snapshot; after
`Done` the bar is finished, a final JSON line is printed when requested
and the data renderer prints unless `jsonProgress` (lines 113-126); in
live mode the loop at lines 128-137 keeps polling and printing
unconditionally. -/

/-- An error surfaced while running a search: the `context.Canceled`
sentinel, an `api.QueryError`, or any other error. -/
inductive SearchErr where
  | canceled
  | queryErr (msg : String)
  | other (msg : String)
deriving DecidableEq, Repr

/-- The response consumed by one `WaitAndPollContext` call of the
session. -/
inductive PollIn where
  | canceled
  | failed (e : SearchErr)
  | ok (r : QueryResult)
deriving DecidableEq, Repr

/-- One observable output action of the session. -/
inductive OutputItem where
  | progressUpdate (r : QueryResult)
  | progressFinish
  | jsonLine (r : QueryResult)
  | printerPrint (r : QueryResult)
deriving DecidableEq, Repr

/-- How a modelled session run ends: normal completion, cancellation,
failure, or exhaustion of the observed finite prefix of poll responses
(a live session has no natural end). -/
inductive SessionEnd where
  | completed
  | canceled
  | failed (e : SearchErr)
  | exhausted
deriving DecidableEq, Repr

/-- Exit state of the `for !result.Done` loop. -/
inductive LoopExit where
  | reachedDone (r : QueryResult) (rest : List PollIn)
  | canceled
  | failed (e : SearchErr)
  | exhausted
deriving DecidableEq, Repr

/-- The per-iteration output of the `for !result.Done` loop body for a
non-final snapshot (search.go:100-106): a bar update when the bar
exists, then a JSON progress line when requested. -/
def donePre (bar jsonProgress : Bool) (r : QueryResult) : List OutputItem :=
  (if bar then [OutputItem.progressUpdate r] else []) ++
    (if jsonProgress then [OutputItem.jsonLine r] else [])

/-- The `for !result.Done` loop (search.go:99-111). -/
def doneLoop (bar jsonProgress : Bool) :
    QueryResult → List PollIn → List OutputItem × LoopExit
  | r, [] =>
      if r.done then ([], .reachedDone r [])
      else (donePre bar jsonProgress r, .exhausted)
  | r, pi :: rest =>
      if r.done then ([], .reachedDone r (pi :: rest))
      else
        match pi with
        | .canceled => (donePre bar jsonProgress r, .canceled)
        | .failed e => (donePre bar jsonProgress r, .failed e)
        | .ok r2 =>
            let res := doneLoop bar jsonProgress r2 rest
            (donePre bar jsonProgress r ++ res.1, res.2)

/-- The live tail loop (search.go:128-137): poll and print forever,
until cancellation or a poll error. -/
def liveLoop : List PollIn → List OutputItem × SessionEnd
  | [] => ([], .exhausted)
  | .canceled :: _ => ([], .canceled)
  | .failed e :: _ => ([], .failed e)
  | .ok r :: rest =>
      let res := liveLoop rest
      (OutputItem.printerPrint r :: res.1, res.2)

/-- The session body (search.go:49-139), from the first poll (line 83)
on.  `jsonProgress` forces `noProgress` (lines 49-51), and the bar
exists only when progress is not suppressed. -/
def searchSession (live jsonProgress noProgressFlag : Bool)
    (polls : List PollIn) : List OutputItem × SessionEnd :=
  let noProgress := noProgressFlag || jsonProgress
  let bar := !noProgress
  match polls with
  | [] => ([], .exhausted)
  | .canceled :: _ => ([], .canceled)
  | .failed e :: _ => ([], .failed e)
  | .ok r :: rest =>
      let dres := doneLoop bar jsonProgress r rest
      match dres.2 with
      | .canceled => (dres.1, .canceled)
      | .failed e => (dres.1, .failed e)
      | .exhausted => (dres.1, .exhausted)
      | .reachedDone rf rest2 =>
          let fin := (if bar then [OutputItem.progressUpdate rf,
              OutputItem.progressFinish] else []) ++
            (if jsonProgress then [OutputItem.jsonLine rf] else []) ++
            (if jsonProgress then [] else [OutputItem.printerPrint rf])
          if live then
            let lres := liveLoop rest2
            (dres.1 ++ fin ++ lres.1, lres.2)
          else (dres.1 ++ fin, .completed)

/-- The error value the session lambda returns for each way a run
ends. -/
def sessionErr : SessionEnd → Option SearchErr
  | .completed => none
  | .canceled => some .canceled
  | .failed e => some e
  | .exhausted => none

/-- Process exit status. -/
inductive ExitStatus where
  | success
  | failure
deriving DecidableEq, Repr

/-- The outcome of the error-handling tail of the command: the exit
status and the error messages printed. -/
structure CliOutcome where
  exit : ExitStatus
  errMessages : List String
deriving DecidableEq, Repr

/-- Modelled from the spec: `exitOnError` lives elsewhere in this
repository (not under `src/`); per the spec's error taxonomy an error is
surfaced with the given message and a non-zero exit, and no error means
a clean, successful exit. -/
def exitOnError (err : Option SearchErr) (msg : String) : CliOutcome :=
  match err with
  | none => { exit := .success, errMessages := [] }
  | some .canceled => { exit := .failure, errMessages := [msg] }
  | some (.queryErr m) =>
      { exit := .failure, errMessages := [msg ++ ": " ++ m] }
  | some (.other m) =>
      { exit := .failure, errMessages := [msg ++ ": " ++ m] }

/-- The error handling after the session lambda (search.go:142-151):
`context.Canceled` is cleared to nil before reporting; a query error
prints its dedicated message and exits with status 1; everything else
goes through `exitOnError`. -/
def handleSearchResult (err : Option SearchErr) : CliOutcome :=
  let err := if err = some SearchErr.canceled then none else err
  match err with
  | some (.queryErr m) =>
      { exit := .failure
        errMessages :=
          ["There was an error in your query string:\n\n" ++ m ++ "\n"] }
  | e => exitOnError e "error running search"

/-- Claim C9: a user-initiated cancellation is a clean, non-error
termination — the cancellation error is cleared before reporting, no
message is printed for it, and the exit status is success (while a query
error or any other error exits with failure). -/
theorem search_c9_cancellation_clean (live jp np : Bool)
    (polls : List PollIn)
    (h : (searchSession live jp np polls).2 = SessionEnd.canceled) :
    handleSearchResult (sessionErr (searchSession live jp np polls).2) =
      { exit := ExitStatus.success, errMessages := [] } ∧
    handleSearchResult (some SearchErr.canceled) =
      { exit := ExitStatus.success, errMessages := [] } ∧
    (∀ m, (handleSearchResult (some (SearchErr.queryErr m))).exit =
      ExitStatus.failure) ∧
    (∀ m, (handleSearchResult (some (SearchErr.other m))).exit =
      ExitStatus.failure) := by
  rw [h]
  exact ⟨rfl, rfl, fun m => rfl, fun m => rfl⟩

/-- Witness for C9: a session whose first wait is canceled ends
canceled, and the handler reports success with no message. -/
theorem search_c9_witness :
    (searchSession false false false [PollIn.canceled]).2 =
      SessionEnd.canceled ∧
    handleSearchResult
      (sessionErr (searchSession false false false [PollIn.canceled]).2) =
      { exit := ExitStatus.success, errMessages := [] } :=
  ⟨by decide,
    (search_c9_cancellation_clean false false false [PollIn.canceled]
      (by decide)).1⟩

/-- A done snapshot, as the first poll of a live query returns. -/
def snapDone : QueryResult :=
  { done := true, metadata := mdZero, events := [] }

/-- A later live-mode snapshot carrying an event. -/
def snapLive : QueryResult :=
  { done := true, metadata := mdZero, events := [[("x", Value.str "y")]] }

/-- A not-yet-done snapshot. -/
def snapNotDone : QueryResult :=
  { done := false, metadata := mdZero, events := [] }

theorem donePre_no_printer (bar jp : Bool) (x r : QueryResult) :
    OutputItem.printerPrint x ∉ donePre bar jp r := by
  unfold donePre
  cases bar <;> cases jp <;> simp

theorem doneLoop_no_printer (bar jp : Bool) (x : QueryResult) :
    ∀ (polls : List PollIn) (r : QueryResult),
      OutputItem.printerPrint x ∉ (doneLoop bar jp r polls).1 := by
  intro polls
  induction polls with
  | nil =>
      intro r
      simp only [doneLoop]
      by_cases h : r.done = true
      · simp [h]
      · simp only [h, if_false, Bool.false_eq_true]
        exact donePre_no_printer bar jp x r
  | cons pi rest ih =>
      intro r
      simp only [doneLoop]
      by_cases h : r.done = true
      · simp [h]
      · simp only [h, if_false, Bool.false_eq_true]
        cases pi with
        | canceled => exact donePre_no_printer bar jp x r
        | failed e => exact donePre_no_printer bar jp x r
        | ok r2 =>
            intro hmem
            simp only [List.mem_append] at hmem
            rcases hmem with hmem | hmem
            · exact donePre_no_printer bar jp x r hmem
            · exact ih r2 hmem

/-- Claim C8, evaluated on the code: in the non-live portion,
`--json-progress` suppresses the bar and the data renderer entirely (no
`printerPrint` action ever occurs, one JSON line per poll and one for
the final snapshot); but at the failing input — live mode with
`--json-progress` — the live loop calls the data renderer for every
live snapshot (and emits no JSON progress lines for them), contradicting
the claim and the flag's own help text ("This disables progress and
output"). -/
theorem search_c8_json_progress_bug :
    (∀ (np : Bool) (polls : List PollIn) (x : QueryResult),
      OutputItem.printerPrint x ∉ (searchSession false true np polls).1) ∧
    (searchSession false true false
        [PollIn.ok snapNotDone, PollIn.ok snapDone]).1 =
      [OutputItem.jsonLine snapNotDone, OutputItem.jsonLine snapDone] ∧
    (searchSession true true false
        [PollIn.ok snapDone, PollIn.ok snapLive]).1 =
      [OutputItem.jsonLine snapDone, OutputItem.printerPrint snapLive] ∧
    OutputItem.printerPrint snapLive ∈
      (searchSession true true false
        [PollIn.ok snapDone, PollIn.ok snapLive]).1 := by
  refine ⟨?_, by decide, by decide, by decide⟩
  intro np polls x
  unfold searchSession
  cases polls with
  | nil => simp
  | cons pi rest =>
      cases pi with
      | canceled => simp
      | failed e => simp
      | ok r =>
          simp only []
          cases hd : (doneLoop (!(np || true)) true r rest).2 with
          | canceled =>
              simp only [hd]
              exact doneLoop_no_printer _ _ x rest r
          | failed e =>
              simp only [hd]
              exact doneLoop_no_printer _ _ x rest r
          | exhausted =>
              simp only [hd]
              exact doneLoop_no_printer _ _ x rest r
          | reachedDone rf rest2 =>
              simp only [hd, Bool.or_true, Bool.not_true, Bool.false_eq_true,
                if_false, if_true, List.nil_append, List.append_nil]
              intro hmem
              rcases List.mem_append.mp hmem with hmem | hmem
              · exact doneLoop_no_printer _ _ x rest r hmem
              · simp at hmem

end HumioCli
